import Mathlib

/-!
# Book similarity: a shallow embedding of `src/main.cpp`

The program profiles every text file of a folder (`countWords`,
`getTopNormalizedWords`, `processBooks`), scores every pair of profiles by a
sparse dot product (`createSimilarityMatrix`) and reports the best pairs
(`findTopSimilarPairs`).

Modelling conventions.

* `std::unordered_map<std::string, V>` is an association list
  `List (String × V)` read in iteration order.  A C++ map holds each key at most
  once; that is the predicate `UMap.WF`, assumed of every map a theorem receives
  from outside.  The iteration order of an unordered map is unspecified, so the
  theorems quantify over every list, that is over every order.
* `double` is read as an exact rational `ℚ` in the functions named after the
  source.  Where rounding decides a property, the functions whose names end in
  `Double` read the same statements with the rounding of IEEE 754 binary64
  (`roundDouble`); infinities and NaN are outside the model.  `int` values are
  `Int`; loop counters and container sizes are `Nat` (a container of the program
  never holds `2^31` elements).
* `std::vector<std::vector<double>>` is `List (List ℚ)`.  A write through
  `operator[]` is `matSet`; a read is `matGet`, which is `none` out of range
  (undefined behaviour in C++).
* `std::unordered_map::at` throws when the key is absent: `UMap.at` returns an
  `Option`, and a function that may throw returns an `Option` as well.
* The file system is a function from a file name to the content of the file,
  `none` when the file cannot be opened.
-/

namespace Books

/-! ## `std::unordered_map` -/

namespace UMap

/-- A map holds each key at most once. -/
def WF {β : Type} (m : List (String × β)) : Prop := (m.map Prod.fst).Nodup

instance {β : Type} (m : List (String × β)) : Decidable (WF m) := by
  unfold WF; infer_instance

/-- The member `at`: the value stored under `k`, `none` where C++ throws
`std::out_of_range`. -/
def «at» {β : Type} (m : List (String × β)) (k : String) : Option β :=
  match m with
  | [] => none
  | e :: rest => if e.1 = k then some e.2 else «at» rest k

/-- The member `count`: 1 when `k` is a key of the map, 0 otherwise. -/
def count {β : Type} (m : List (String × β)) (k : String) : Nat :=
  match «at» m k with
  | some _ => 1
  | none => 0

/-- The statement `m[k] = v`: overwrite the value of an existing key, insert a
new entry otherwise. -/
def assign {β : Type} (m : List (String × β)) (k : String) (v : β) : List (String × β) :=
  match m with
  | [] => [(k, v)]
  | e :: rest => if e.1 = k then (k, v) :: rest else e :: assign rest k v

/-- The member `size`. -/
def size {β : Type} (m : List (String × β)) : Nat := m.length

end UMap

/-! ## `countWords` -/

/-- The global constant `TOP_WORDS_COUNT`. -/
def TOP_WORDS_COUNT : Nat := 100

/-- A file system: the content of each file that can be opened. -/
abbrev FileSystem := String → Option String

/-- The C function `isspace` in the default locale. -/
def isspace (c : Char) : Bool :=
  c.toNat = 32 || (9 ≤ c.toNat && c.toNat ≤ 13)

/-- The C function `isalnum` in the default locale. -/
def isalnum (c : Char) : Bool :=
  (48 ≤ c.toNat && c.toNat ≤ 57) || (65 ≤ c.toNat && c.toNat ≤ 90) ||
    (97 ≤ c.toNat && c.toNat ≤ 122)

/-- The C function `toupper` in the default locale. -/
def toupper (c : Char) : Char :=
  if 97 ≤ c.toNat ∧ c.toNat ≤ 122 then Char.ofNat (c.toNat - 32) else c

/-- The words `file >> word` extracts one after the other: the maximal runs of
characters that are not white space.  `cur` is the run being read, reversed. -/
def extractWords : List Char → List Char → List (List Char)
  | [], cur => if cur.isEmpty then [] else [cur.reverse]
  | c :: cs, cur =>
    if isspace c then
      if cur.isEmpty then extractWords cs [] else cur.reverse :: extractWords cs []
    else extractWords cs (c :: cur)

/-- The local set `commonWords` of `countWords`; the function never reads it. -/
def commonWords : List String := ["A", "AND", "AN", "OF", "IN", "THE"]

/-- The loop `while (file >> word)` of `countWords`, over the words still to
be read.  The state is `(wordCount, totalWords)`.  The body strips and
upper-cases its local `word` and ends there: it writes neither component. -/
def countWordsLoop :
    List (List Char) → List (String × Int) × Int → List (String × Int) × Int
  | [], state => state
  | word :: rest, state =>
    let word := word.filter isalnum
    let _word := word.map toupper
    countWordsLoop rest state

/-- The function `countWords`: returns the map `wordCount` and the final value
of the reference parameter `totalWords`.  A file that cannot be opened yields
no word. -/
def countWords (fs : FileSystem) (filename : String) (totalWords : Int) :
    List (String × Int) × Int :=
  let wordCount : List (String × Int) := []
  let words := match fs filename with
    | some content => extractWords content.toList []
    | none => []
  countWordsLoop words (wordCount, totalWords)

/-! ## `getTopNormalizedWords` -/

/-- The comparator handed to `std::sort`: `a.second > b.second`. -/
def byFrequency (a b : String × Int) : Prop := a.2 > b.2

instance : DecidableRel byFrequency := fun a b => by
  unfold byFrequency; infer_instance

/-- The result of `std::sort` with `byFrequency`: a rearrangement of the vector
in which no element is `byFrequency`-before an earlier one.  The standard leaves
the order of tied elements open; the model keeps tied elements in their input
order (an insertion sort), and the input order, the iteration order of the map,
is arbitrary. -/
def stdSort (wordVector : List (String × Int)) : List (String × Int) :=
  wordVector.insertionSort (fun a b => ¬ byFrequency b a)

/-- The loop `for (int i = 0; i < min(TOP_WORDS_COUNT, size); i++)` of
`getTopNormalizedWords`, over the elements `wordVector[i]` it visits:
`topWords[word] = static_cast<double>(count) / totalWords`. -/
def normalizeLoop (totalWords : Int) :
    List (String × Int) → List (String × ℚ) → List (String × ℚ)
  | [], topWords => topWords
  | (word, count) :: rest, topWords =>
    normalizeLoop totalWords rest (UMap.assign topWords word ((count : ℚ) / (totalWords : ℚ)))

/-- The body of `getTopNormalizedWords` for a given sorting routine. -/
def getTopNormalizedWordsWith (sort : List (String × Int) → List (String × Int))
    (wordCount : List (String × Int)) (totalWords : Int) : List (String × ℚ) :=
  let wordVector := sort wordCount
  normalizeLoop totalWords (wordVector.take (min TOP_WORDS_COUNT wordVector.length)) []

/-- The function `getTopNormalizedWords`. -/
def getTopNormalizedWords (wordCount : List (String × Int)) (totalWords : Int) :
    List (String × ℚ) :=
  getTopNormalizedWordsWith stdSort wordCount totalWords

/-! ## `processBooks` -/

/-- The loop of `processBooks` over the file names still to be processed. -/
def processBooksLoop (fs : FileSystem) :
    List String → List (String × List (String × ℚ)) → List (String × List (String × ℚ))
  | [], bookProfiles => bookProfiles
  | filename :: rest, bookProfiles =>
    let totalWords : Int := 0
    let (wordCount, totalWords) := countWords fs filename totalWords
    processBooksLoop fs rest
      (UMap.assign bookProfiles filename (getTopNormalizedWords wordCount totalWords))

/-- The function `processBooks`. -/
def processBooks (fs : FileSystem) (filenames : List String) :
    List (String × List (String × ℚ)) :=
  processBooksLoop fs filenames []

/-! ## `createSimilarityMatrix` -/

/-- The read `M[i][j]`, `none` out of range. -/
def matGet (M : List (List ℚ)) (i j : Nat) : Option ℚ :=
  match M[i]? with
  | some row => row[j]?
  | none => none

/-- The write `M[i][j] = v` (in range wherever the program performs it). -/
def matSet (M : List (List ℚ)) (i j : Nat) (v : ℚ) : List (List ℚ) :=
  match M[i]? with
  | some row => M.set i (row.set j v)
  | none => M

/-- The loop `for (const auto& [word, freqA] : profileA)` of
`createSimilarityMatrix`, started with `similarityIndex`. -/
def similarityLoop (profileB : List (String × ℚ)) :
    List (String × ℚ) → ℚ → ℚ
  | [], similarityIndex => similarityIndex
  | (word, freqA) :: rest, similarityIndex =>
    if UMap.count profileB word ≠ 0 then
      match UMap.at profileB word with
      | some freqB => similarityLoop profileB rest (similarityIndex + freqA * freqB)
      | none => similarityLoop profileB rest similarityIndex
    else similarityLoop profileB rest similarityIndex

/-- The loop `for (int j = i + 1; j < bookCount; ++j)` of
`createSimilarityMatrix`, over the values of `j` still to come; `none` when an
`at` throws. -/
def createRowLoop (filenames : List String)
    (bookProfiles : List (String × List (String × ℚ))) (i : Nat) :
    List Nat → List (List ℚ) → Option (List (List ℚ))
  | [], similarityMatrix => some similarityMatrix
  | j :: rest, similarityMatrix =>
    match filenames[i]?, filenames[j]? with
    | some nameA, some nameB =>
      match UMap.at bookProfiles nameA, UMap.at bookProfiles nameB with
      | some profileA, some profileB =>
        let similarityIndex := similarityLoop profileB profileA 0
        createRowLoop filenames bookProfiles i rest
          (matSet (matSet similarityMatrix i j similarityIndex) j i similarityIndex)
      | _, _ => none
    | _, _ => none

/-- The loop `for (int i = 0; i < bookCount; ++i)` of `createSimilarityMatrix`,
over the values of `i` still to come. -/
def createMatrixLoop (filenames : List String)
    (bookProfiles : List (String × List (String × ℚ))) (bookCount : Nat) :
    List Nat → List (List ℚ) → Option (List (List ℚ))
  | [], similarityMatrix => some similarityMatrix
  | i :: rest, similarityMatrix =>
    match createRowLoop filenames bookProfiles i
        (List.range' (i + 1) (bookCount - (i + 1))) similarityMatrix with
    | some similarityMatrix => createMatrixLoop filenames bookProfiles bookCount rest similarityMatrix
    | none => none

/-- The function `createSimilarityMatrix`; `none` when `bookProfiles.at` throws. -/
def createSimilarityMatrix (filenames : List String)
    (bookProfiles : List (String × List (String × ℚ))) : Option (List (List ℚ)) :=
  let bookCount := filenames.length
  createMatrixLoop filenames bookProfiles bookCount (List.range bookCount)
    (List.replicate bookCount (List.replicate bookCount 0))

/-! ## `findTopSimilarPairs` -/

/-- The order `operator<` of `std::tuple<double, int, int>`: lexicographic. -/
def tupleLess (a b : ℚ × Nat × Nat) : Bool :=
  decide (a.1 < b.1) ||
    (!decide (b.1 < a.1) &&
      (decide (a.2.1 < b.2.1) || (!decide (b.2.1 < a.2.1) && decide (a.2.2 < b.2.2))))

/-- The member `top` of `std::priority_queue` with the default comparison: an
element no other element is greater than.  The queue is modelled by the list of
its elements; which of several equal elements is returned is of no consequence. -/
def pqTop : List (ℚ × Nat × Nat) → Option (ℚ × Nat × Nat)
  | [] => none
  | x :: rest =>
    match pqTop rest with
    | some y => if tupleLess x y then some y else some x
    | none => some x

/-- The member `pop` of `std::priority_queue`: removes the top element. -/
def pqPop (heap : List (ℚ × Nat × Nat)) : List (ℚ × Nat × Nat) :=
  match pqTop heap with
  | some t => heap.erase t
  | none => heap

/-- The member `emplace` of `std::priority_queue`. -/
def pqEmplace (heap : List (ℚ × Nat × Nat)) (similarity : ℚ) (i j : Nat) :
    List (ℚ × Nat × Nat) :=
  (similarity, i, j) :: heap

/-- The loop `for (int j = i + 1; j < bookCount; ++j)` of `findTopSimilarPairs`,
over the values of `j` still to come; `none` when a read is out of range. -/
def fillRowLoop (similarityMatrix : List (List ℚ)) (i : Nat) :
    List Nat → List (ℚ × Nat × Nat) → Option (List (ℚ × Nat × Nat))
  | [], maxHeap => some maxHeap
  | j :: rest, maxHeap =>
    match matGet similarityMatrix i j with
    | some similarity => fillRowLoop similarityMatrix i rest (pqEmplace maxHeap similarity i j)
    | none => none

/-- The loop `for (int i = 0; i < bookCount; ++i)` of `findTopSimilarPairs`,
over the values of `i` still to come. -/
def fillHeapLoop (similarityMatrix : List (List ℚ)) (bookCount : Nat) :
    List Nat → List (ℚ × Nat × Nat) → Option (List (ℚ × Nat × Nat))
  | [], maxHeap => some maxHeap
  | i :: rest, maxHeap =>
    match fillRowLoop similarityMatrix i
        (List.range' (i + 1) (bookCount - (i + 1))) maxHeap with
    | some maxHeap => fillHeapLoop similarityMatrix bookCount rest maxHeap
    | none => none

/-- The loop `for (int i = 0; i < topPairsCount && !maxHeap.empty(); ++i)` of
`findTopSimilarPairs`; `remaining` is the number of values of `i` below
`topPairsCount` still to come. -/
def retrieveLoop :
    Nat → List (ℚ × Nat × Nat) → List (Nat × Nat × ℚ) → List (Nat × Nat × ℚ)
  | 0, _, topPairs => topPairs
  | remaining + 1, maxHeap, topPairs =>
    match pqTop maxHeap with
    | some (similarity, bookA, bookB) =>
      retrieveLoop remaining (pqPop maxHeap) (topPairs ++ [(bookA, bookB, similarity)])
    | none => topPairs

/-- The function `findTopSimilarPairs`; `none` when it reads the matrix out of
range.  `topPairsCount` is an `int` and may be negative. -/
def findTopSimilarPairs (similarityMatrix : List (List ℚ)) (topPairsCount : Int) :
    Option (List (Nat × Nat × ℚ)) :=
  let bookCount := similarityMatrix.length
  match fillHeapLoop similarityMatrix bookCount (List.range bookCount) [] with
  | some maxHeap => some (retrieveLoop topPairsCount.toNat maxHeap [])
  | none => none

/-! ## Notions the statements use -/

/-- The entry `normalizeLoop` writes for the element `e` of `wordVector`. -/
def normalized (totalWords : Int) (e : String × Int) : String × ℚ :=
  (e.1, (e.2 : ℚ) / (totalWords : ℚ))

/-- The set of terms a profile holds. -/
def terms (profile : List (String × ℚ)) : Finset String :=
  (profile.map Prod.fst).toFinset

/-- The weight of a term in a profile, 0 for a term the profile does not hold. -/
def weight (profile : List (String × ℚ)) (t : String) : ℚ :=
  (UMap.at profile t).getD 0

/-- The sparse dot product as the specification words it: the sum, over the
terms present in both profiles, of the product of the two weights. -/
def sharedTermsDot (profileA profileB : List (String × ℚ)) : ℚ :=
  ∑ t ∈ terms profileA ∩ terms profileB, weight profileA t * weight profileB t

/-- The profile `bookProfiles.at(filenames[i])`. -/
def profileOf (filenames : List String)
    (bookProfiles : List (String × List (String × ℚ))) (i : Nat) :
    Option (List (String × ℚ)) :=
  match filenames[i]? with
  | some name => UMap.at bookProfiles name
  | none => none

/-- A matrix with `n` rows of `n` entries. -/
def IsSquare (n : Nat) (M : List (List ℚ)) : Prop :=
  M.length = n ∧ ∀ row ∈ M, row.length = n

instance (n : Nat) (M : List (List ℚ)) : Decidable (IsSquare n M) := by
  unfold IsSquare; infer_instance

/-- The index pairs `(i, j)` the two nested loops visit, in order, for the
values of `i` in `is`. -/
def indexPairs (bookCount : Nat) (is : List Nat) : List (Nat × Nat) :=
  is.flatMap (fun i => (List.range' (i + 1) (bookCount - (i + 1))).map (fun j => (i, j)))

/-- The two writes of one iteration of the inner loop of
`createSimilarityMatrix`, for a score given as a function of the index pair. -/
def pairStep (score : Nat → Nat → ℚ) (M : List (List ℚ)) (p : Nat × Nat) : List (List ℚ) :=
  matSet (matSet M p.1 p.2 (score p.1 p.2)) p.2 p.1 (score p.1 p.2)

/-- The score the inner loop of `createSimilarityMatrix` computes for the pair
`(i, j)`, with an empty profile where `at` throws. -/
def scoreOf (filenames : List String)
    (bookProfiles : List (String × List (String × ℚ))) (i j : Nat) : ℚ :=
  similarityLoop ((profileOf filenames bookProfiles j).getD [])
    ((profileOf filenames bookProfiles i).getD []) 0

/-- The value read at `M[i][j]`, 0 out of range. -/
def entry (M : List (List ℚ)) (i j : Nat) : ℚ :=
  (matGet M i j).getD 0

/-- The content of `maxHeap` once the two loops of `findTopSimilarPairs` have
filled it from a square matrix, newest element first. -/
def heapOf (M : List (List ℚ)) : List (ℚ × Nat × Nat) :=
  ((indexPairs M.length (List.range M.length)).map
    (fun p => (entry M p.1 p.2, p.1, p.2))).reverse

/-- A tuple of the queue as an element of the lexicographic order on
`(score, i, j)`. -/
def lexKey (a : ℚ × Nat × Nat) : ℚ ×ₗ ℕ ×ₗ ℕ :=
  toLex (a.1, toLex (a.2.1, a.2.2))

/-- The two documents of scenario A of the specification, as files `X` and
`Y`; no other file can be opened. -/
def scenarioA : FileSystem := fun filename =>
  if filename = "X" then some "THE CAT SAT ON THE MAT"
  else if filename = "Y" then some "A CAT SAT ON A HAT"
  else none

/-- The divisions the loop of `getTopNormalizedWords` performs, one for each
iteration, as pairs `(count, totalWords)` of dividend and divisor. -/
def divisionsPerformed (wordCount : List (String × Int)) (totalWords : Int) :
    List (Int × Int) :=
  let wordVector := stdSort wordCount
  (wordVector.take (min TOP_WORDS_COUNT wordVector.length)).map (fun e => (e.2, totalWords))

/-- The index pair `(i, j)` comes before `(i2, j2)` in the order the two nested
loops discover the pairs. -/
def discoveredBefore (a b : Nat × Nat × ℚ) : Prop :=
  a.1 < b.1 ∨ (a.1 = b.1 ∧ a.2.1 < b.2.1)

instance (a b : Nat × Nat × ℚ) : Decidable (discoveredBefore a b) := by
  unfold discoveredBefore; infer_instance

/-- The tie rule as the specification words it: of two returned pairs with
equal scores, the one discovered first stands earlier in the result. -/
def TiesInDiscoveryOrder (topPairs : List (Nat × Nat × ℚ)) : Prop :=
  ∀ (p q : Nat) (x y : Nat × Nat × ℚ), topPairs[p]? = some x → topPairs[q]? = some y →
    x.2.2 = y.2.2 → discoveredBefore x y → p < q

/-- The tie rule of the max-queue on `(score, i, j)`: of two returned pairs with
equal scores, the one discovered last stands earlier in the result. -/
def TiesInReverseDiscoveryOrder (topPairs : List (Nat × Nat × ℚ)) : Prop :=
  ∀ (p q : Nat) (x y : Nat × Nat × ℚ), topPairs[p]? = some x → topPairs[q]? = some y →
    x.2.2 = y.2.2 → discoveredBefore y x → p < q

/-! ## The arithmetic of `double`

The definitions above read a `double` as the rational it stands for and compute
with it exactly.  Those below read the same statements with the rounding of
IEEE 754 binary64: every `double` is a rational with 53 significant bits, and
each division, product and sum is rounded to the nearest such value, ties to
the even one.  Overflow to infinity and NaN stay outside the model. -/

/-- The power `2^e` for an integer exponent. -/
def pow2 (e : Int) : ℚ :=
  if 0 ≤ e then (2 : ℚ) ^ e.toNat else 1 / (2 : ℚ) ^ (-e).toNat

/-- The number of times `n` can be halved before it falls below 2, at most
`fuel` times. -/
def halvings : Nat → Nat → Nat
  | 0, _ => 0
  | fuel + 1, n => if n < 2 then 0 else halvings fuel (n / 2) + 1

/-- The position of the leading binary digit of `n`: the largest `k` with
`2^k ≤ n`, for `n > 0`. -/
def floorLog2 (n : Nat) : Nat := halvings n n

/-- The exponent `e` with `2^e ≤ q < 2^(e+1)`, for `q > 0`. -/
def binade (q : ℚ) : Int :=
  let e : Int := (floorLog2 q.num.natAbs : Int) - (floorLog2 q.den : Int)
  if pow2 e ≤ q then e else e - 1

/-- The integer nearest to `x ≥ 0`, the even one of two equally near. -/
def roundHalfEven (x : ℚ) : Int :=
  let f : Int := Rat.floor x
  let r : ℚ := x - (f : ℚ)
  if r < 1 / 2 then f
  else if 1 / 2 < r then f + 1
  else if f % 2 = 0 then f else f + 1

/-- The `double` nearest to `q > 0`: a multiple of `2^(e-52)` where `e` is the
binade of `q`, and of `2^(-1074)` below `2^(-1022)`. -/
def roundDoublePos (q : ℚ) : ℚ :=
  let e : Int := max (binade q) (-1022)
  let ulp : ℚ := pow2 (e - 52)
  (roundHalfEven (q / ulp) : ℚ) * ulp

/-- The `double` nearest to `q`. -/
def roundDouble (q : ℚ) : ℚ :=
  if q = 0 then 0
  else if 0 < q then roundDoublePos q
  else - roundDoublePos (-q)

/-- The quotient `a / b` of two `double`s. -/
def doubleDiv (a b : ℚ) : ℚ := roundDouble (a / b)

/-- The product `a * b` of two `double`s. -/
def doubleMul (a b : ℚ) : ℚ := roundDouble (a * b)

/-- The sum `a + b` of two `double`s. -/
def doubleAdd (a b : ℚ) : ℚ := roundDouble (a + b)

/-- The loop of `getTopNormalizedWords` with the division of `double`s:
`topWords[word] = static_cast<double>(count) / totalWords`.  An `int` converts
to `double` without rounding. -/
def normalizeLoopDouble (totalWords : Int) :
    List (String × Int) → List (String × ℚ) → List (String × ℚ)
  | [], topWords => topWords
  | (word, count) :: rest, topWords =>
    normalizeLoopDouble totalWords rest
      (UMap.assign topWords word (doubleDiv (count : ℚ) (totalWords : ℚ)))

/-- The function `getTopNormalizedWords` with the division of `double`s. -/
def getTopNormalizedWordsDouble (wordCount : List (String × Int)) (totalWords : Int) :
    List (String × ℚ) :=
  let wordVector := stdSort wordCount
  normalizeLoopDouble totalWords (wordVector.take (min TOP_WORDS_COUNT wordVector.length)) []

/-- The loop `for (const auto& [word, freqA] : profileA)` of
`createSimilarityMatrix` with the product and the sum of `double`s:
`similarityIndex += freqA * profileB.at(word)`. -/
def similarityLoopDouble (profileB : List (String × ℚ)) :
    List (String × ℚ) → ℚ → ℚ
  | [], similarityIndex => similarityIndex
  | (word, freqA) :: rest, similarityIndex =>
    if UMap.count profileB word ≠ 0 then
      match UMap.at profileB word with
      | some freqB =>
        similarityLoopDouble profileB rest (doubleAdd similarityIndex (doubleMul freqA freqB))
      | none => similarityLoopDouble profileB rest similarityIndex
    else similarityLoopDouble profileB rest similarityIndex

/-- The inner loop of `createSimilarityMatrix` with the arithmetic of `double`. -/
def createRowLoopDouble (filenames : List String)
    (bookProfiles : List (String × List (String × ℚ))) (i : Nat) :
    List Nat → List (List ℚ) → Option (List (List ℚ))
  | [], similarityMatrix => some similarityMatrix
  | j :: rest, similarityMatrix =>
    match filenames[i]?, filenames[j]? with
    | some nameA, some nameB =>
      match UMap.at bookProfiles nameA, UMap.at bookProfiles nameB with
      | some profileA, some profileB =>
        let similarityIndex := similarityLoopDouble profileB profileA 0
        createRowLoopDouble filenames bookProfiles i rest
          (matSet (matSet similarityMatrix i j similarityIndex) j i similarityIndex)
      | _, _ => none
    | _, _ => none

/-- The outer loop of `createSimilarityMatrix` with the arithmetic of `double`. -/
def createMatrixLoopDouble (filenames : List String)
    (bookProfiles : List (String × List (String × ℚ))) (bookCount : Nat) :
    List Nat → List (List ℚ) → Option (List (List ℚ))
  | [], similarityMatrix => some similarityMatrix
  | i :: rest, similarityMatrix =>
    match createRowLoopDouble filenames bookProfiles i
        (List.range' (i + 1) (bookCount - (i + 1))) similarityMatrix with
    | some similarityMatrix =>
      createMatrixLoopDouble filenames bookProfiles bookCount rest similarityMatrix
    | none => none

/-- The function `createSimilarityMatrix` with the arithmetic of `double`. -/
def createSimilarityMatrixDouble (filenames : List String)
    (bookProfiles : List (String × List (String × ℚ))) : Option (List (List ℚ)) :=
  let bookCount := filenames.length
  createMatrixLoopDouble filenames bookProfiles bookCount (List.range bookCount)
    (List.replicate bookCount (List.replicate bookCount 0))

/-- The sum of a list of `double`s, added one after the other from `0.0`. -/
def doubleSum (weights : List ℚ) : ℚ :=
  weights.foldl doubleAdd 0

/-- A word-count map of eleven terms, each counted once. -/
def elevenWords : List (String × Int) :=
  [("A", 1), ("B", 1), ("C", 1), ("D", 1), ("E", 1), ("F", 1), ("G", 1), ("H", 1),
    ("I", 1), ("J", 1), ("K", 1)]

/-- A profile of three terms, each of weight `1.0 / 3`. -/
def thirds : List (String × ℚ) :=
  [("X", doubleDiv 1 3), ("Y", doubleDiv 1 3), ("Z", doubleDiv 1 3)]

/-- A profile of the same three terms with the weights `1/8`, `1/4` and `3/8`,
iterated in another order. -/
def eighths : List (String × ℚ) :=
  [("Z", 1 / 8), ("X", 1 / 4), ("Y", 3 / 8)]

/-! ## Facts about the map model -/

namespace UMap

theorem at_eq_none_iff {β : Type} (m : List (String × β)) (k : String) :
    UMap.at m k = none ↔ k ∉ m.map Prod.fst := by
  induction m with
  | nil => simp [UMap.at]
  | cons e rest ih =>
    by_cases h : e.1 = k
    · simp [UMap.at, h]
    · have h2 : ¬ k = e.1 := fun h3 => h h3.symm
      simp only [UMap.at, h, if_false, ih, List.map_cons, List.mem_cons, h2, false_or]

theorem mem_of_at_eq_some {β : Type} (m : List (String × β)) (k : String) (v : β)
    (h : UMap.at m k = some v) : (k, v) ∈ m := by
  induction m with
  | nil => simp [UMap.at] at h
  | cons e rest ih =>
    by_cases hk : e.1 = k
    · simp only [UMap.at, hk, if_true, Option.some.injEq] at h
      rw [← hk, ← h]; exact List.mem_cons_self _ _
    · simp only [UMap.at, hk, if_false] at h
      exact List.mem_cons_of_mem _ (ih h)

theorem at_eq_some_of_mem {β : Type} (m : List (String × β)) (hwf : WF m) (k : String) (v : β)
    (h : (k, v) ∈ m) : UMap.at m k = some v := by
  induction m with
  | nil => simp at h
  | cons e rest ih =>
    have hnd : e.1 ∉ rest.map Prod.fst ∧ (rest.map Prod.fst).Nodup := by
      simpa [WF] using hwf
    rcases List.mem_cons.mp h with h1 | h1
    · simp [UMap.at, ← h1]
    · have hne : e.1 ≠ k := by
        intro hek
        exact hnd.1 (hek ▸ List.mem_map_of_mem Prod.fst h1)
      simp only [UMap.at, hne, if_false]
      exact ih hnd.2 h1

theorem count_ne_zero_iff {β : Type} (m : List (String × β)) (k : String) :
    count m k ≠ 0 ↔ k ∈ m.map Prod.fst := by
  unfold count
  cases h : UMap.at m k with
  | none => simpa using (at_eq_none_iff m k).mp h
  | some v =>
    have : k ∈ m.map Prod.fst := List.mem_map_of_mem Prod.fst (mem_of_at_eq_some m k v h)
    simpa using this

theorem assign_of_not_mem {β : Type} (m : List (String × β)) (k : String) (v : β)
    (h : k ∉ m.map Prod.fst) : assign m k v = m ++ [(k, v)] := by
  induction m with
  | nil => rfl
  | cons e rest ih =>
    have h1 : e.1 ≠ k := fun hek => h (by simp [hek])
    have h2 : k ∉ rest.map Prod.fst := fun hk => h (by simp at hk ⊢; exact Or.inr hk)
    simp [assign, h1, ih h2]

theorem at_assign {β : Type} (m : List (String × β)) (k : String) (v : β) (k2 : String) :
    UMap.at (assign m k v) k2 = if k = k2 then some v else UMap.at m k2 := by
  induction m with
  | nil => simp [assign, UMap.at]
  | cons e rest ih =>
    by_cases h : e.1 = k
    · by_cases h2 : k = k2
      · simp [assign, UMap.at, h, h2]
      · simp [assign, UMap.at, h, h2]
    · by_cases h2 : e.1 = k2
      · have h3 : ¬ k = k2 := fun h4 => h (h2.trans h4.symm)
        have h5 : ¬ k2 = k := fun h4 => h3 h4.symm
        simp [assign, UMap.at, h2, h3, h5]
      · simp [assign, UMap.at, h, h2, ih]

end UMap

/-! ## Facts about `getTopNormalizedWords` -/

theorem normalizeLoop_eq (totalWords : Int) (l : List (String × Int)) :
    ∀ topWords : List (String × ℚ),
      (topWords.map Prod.fst ++ l.map Prod.fst).Nodup →
      normalizeLoop totalWords l topWords = topWords ++ l.map (normalized totalWords) := by
  induction l with
  | nil => intro topWords _; simp [normalizeLoop]
  | cons e rest ih =>
    intro topWords hnd
    obtain ⟨word, count⟩ := e
    have hnot : word ∉ topWords.map Prod.fst := by
      intro hmem
      have := (List.nodup_append.mp hnd).2.2
      exact this hmem (by simp)
    have hnd2 : ((topWords ++ [(word, (count : ℚ) / (totalWords : ℚ))]).map Prod.fst
        ++ rest.map Prod.fst).Nodup := by
      simpa using hnd
    simp only [normalizeLoop]
    rw [UMap.assign_of_not_mem _ _ _ hnot, ih _ hnd2]
    simp [normalized]

theorem getTopNormalizedWordsWith_eq (sort : List (String × Int) → List (String × Int))
    (hsort : ∀ l, (sort l).Perm l) (wordCount : List (String × Int)) (hwf : UMap.WF wordCount)
    (totalWords : Int) :
    getTopNormalizedWordsWith sort wordCount totalWords =
      ((sort wordCount).take (min TOP_WORDS_COUNT wordCount.length)).map
        (normalized totalWords) := by
  unfold getTopNormalizedWordsWith
  have hlen : (sort wordCount).length = wordCount.length := (hsort wordCount).length_eq
  have hnd : ((sort wordCount).map Prod.fst).Nodup :=
    (((hsort wordCount).map Prod.fst).nodup_iff).mpr hwf
  have hnd2 : (((sort wordCount).take (min TOP_WORDS_COUNT wordCount.length)).map
      Prod.fst).Nodup := by
    rw [List.map_take]
    exact hnd.sublist (List.take_sublist _ _)
  simp only [hlen]
  rw [normalizeLoop_eq]
  · simp
  · simpa using hnd2

theorem stdSort_perm (l : List (String × Int)) : (stdSort l).Perm l :=
  List.perm_insertionSort _ l

theorem getTopNormalizedWords_eq (wordCount : List (String × Int)) (hwf : UMap.WF wordCount)
    (totalWords : Int) :
    getTopNormalizedWords wordCount totalWords =
      ((stdSort wordCount).take (min TOP_WORDS_COUNT wordCount.length)).map
        (normalized totalWords) :=
  getTopNormalizedWordsWith_eq stdSort stdSort_perm wordCount hwf totalWords

theorem getTopNormalizedWords_entry (wordCount : List (String × Int)) (hwf : UMap.WF wordCount)
    (totalWords : Int) (t : String) (w : ℚ)
    (h : UMap.at (getTopNormalizedWords wordCount totalWords) t = some w) :
    ∃ c : Int, UMap.at wordCount t = some c ∧ (t, c) ∈ wordCount ∧
      w = (c : ℚ) / (totalWords : ℚ) := by
  have hmem := UMap.mem_of_at_eq_some _ _ _ h
  rw [getTopNormalizedWords_eq wordCount hwf] at hmem
  obtain ⟨e, he, heq⟩ := List.mem_map.mp hmem
  have he2 : e ∈ wordCount := (stdSort_perm wordCount).mem_iff.mp (List.mem_of_mem_take he)
  simp only [normalized, Prod.mk.injEq] at heq
  obtain ⟨h1, h2⟩ := heq
  have he3 : (t, e.2) ∈ wordCount := by rw [← h1]; exact he2
  exact ⟨e.2, UMap.at_eq_some_of_mem wordCount hwf t e.2 he3, he3, h2.symm⟩

/-! ## Facts about the matrix model -/

theorem isSquare_matSet (n : Nat) (M : List (List ℚ)) (hM : IsSquare n M) (i j : Nat) (v : ℚ) :
    IsSquare n (matSet M i j v) := by
  unfold matSet
  cases hrow : M[i]? with
  | none => exact hM
  | some row =>
    refine ⟨by simpa using hM.1, ?_⟩
    intro r hr
    rcases List.mem_or_eq_of_mem_set hr with h | h
    · exact hM.2 r h
    · rw [h, List.length_set]
      exact hM.2 row (List.mem_iff_getElem?.mpr ⟨i, hrow⟩)

theorem matGet_matSet (n : Nat) (M : List (List ℚ)) (hM : IsSquare n M) (i j : Nat)
    (hi : i < n) (hj : j < n) (v : ℚ) (a b : Nat) :
    matGet (matSet M i j v) a b = if a = i ∧ b = j then some v else matGet M a b := by
  have hi2 : i < M.length := by rw [hM.1]; exact hi
  have hrow : M[i]? = some M[i] := List.getElem?_eq_getElem hi2
  have hlen : (M[i]).length = n := hM.2 _ (List.getElem_mem _)
  unfold matSet matGet
  rw [hrow]
  simp only [List.getElem?_set]
  by_cases ha : i = a
  · subst ha
    by_cases hb : j = b
    · subst hb
      simp [hi2, hlen, hj]
    · have hb2 : ¬ b = j := fun h => hb h.symm
      simp [hi2, hb, hb2, hrow]
  · have ha2 : ¬ a = i := fun h => ha h.symm
    simp [ha, ha2]

theorem isSquare_pairStep (score : Nat → Nat → ℚ) (n : Nat) (M : List (List ℚ))
    (hM : IsSquare n M) (p : Nat × Nat) : IsSquare n (pairStep score M p) :=
  isSquare_matSet n _ (isSquare_matSet n M hM _ _ _) _ _ _

theorem matGet_pairStep (score : Nat → Nat → ℚ) (n : Nat) (M : List (List ℚ))
    (hM : IsSquare n M) (p : Nat × Nat) (hp : p.1 < p.2 ∧ p.2 < n) (a b : Nat) :
    matGet (pairStep score M p) a b =
      if (a, b) = p then some (score a b)
      else if (b, a) = p then some (score b a) else matGet M a b := by
  obtain ⟨i, j⟩ := p
  simp only at hp
  have hi : i < n := by omega
  unfold pairStep
  rw [matGet_matSet n _ (isSquare_matSet n M hM _ _ _) j i hp.2 hi,
    matGet_matSet n M hM i j hi hp.2]
  simp only [Prod.mk.injEq]
  by_cases h1 : a = i ∧ b = j
  · have h2 : ¬ (a = j ∧ b = i) := by omega
    have h3 : ¬ (b = i ∧ a = j) := by omega
    obtain ⟨ha, hb⟩ := h1
    subst ha; subst hb
    simp [h2]
  · by_cases h2 : a = j ∧ b = i
    · obtain ⟨ha, hb⟩ := h2
      subst ha; subst hb
      simp [h1]
    · have h3 : ¬ (b = i ∧ a = j) := fun h => h2 ⟨h.2, h.1⟩
      simp [h1, h2, h3]

theorem matGet_foldl_pairStep (score : Nat → Nat → ℚ) (n : Nat) (ps : List (Nat × Nat)) :
    (∀ p ∈ ps, p.1 < p.2 ∧ p.2 < n) → ∀ M : List (List ℚ), IsSquare n M → ∀ a b : Nat,
      matGet (ps.foldl (pairStep score) M) a b =
        if (a, b) ∈ ps then some (score a b)
        else if (b, a) ∈ ps then some (score b a) else matGet M a b := by
  induction ps with
  | nil => intro _ M _ a b; simp
  | cons p ps ih =>
    intro hps M hM a b
    have hp := hps p (List.mem_cons_self _ _)
    have hps2 : ∀ q ∈ ps, q.1 < q.2 ∧ q.2 < n := fun q hq => hps q (List.mem_cons_of_mem _ hq)
    rw [List.foldl_cons, ih hps2 _ (isSquare_pairStep score n M hM p) a b,
      matGet_pairStep score n M hM p hp a b]
    by_cases h1 : (a, b) ∈ ps
    · simp [h1]
    · by_cases h2 : (b, a) ∈ ps
      · have hba := hps2 _ h2
        simp only at hba
        have h3 : ¬ (a, b) = p := by
          intro h; rw [← h] at hp; simp only at hp; omega
        simp [h1, h2, h3]
      · by_cases h3 : (a, b) = p
        · subst h3
          simp [h1, h2]
        · by_cases h4 : (b, a) = p
          · subst h4
            simp [h1, h2, h3]
          · simp [h1, h2, h3, h4]

theorem isSquare_foldl_pairStep (score : Nat → Nat → ℚ) (n : Nat) (ps : List (Nat × Nat)) :
    ∀ M : List (List ℚ), IsSquare n M → IsSquare n (ps.foldl (pairStep score) M) := by
  induction ps with
  | nil => intro M hM; exact hM
  | cons p ps ih => intro M hM; exact ih _ (isSquare_pairStep score n M hM p)

theorem mem_indexPairs (n : Nat) (is : List Nat) (a b : Nat) :
    (a, b) ∈ indexPairs n is ↔ a ∈ is ∧ a < b ∧ b < n := by
  unfold indexPairs
  simp only [List.mem_flatMap, List.mem_map, List.mem_range'_1, Prod.mk.injEq]
  constructor
  · rintro ⟨i, hi, j, hj, h1, h2⟩
    subst h1; subst h2
    exact ⟨hi, by omega, by omega⟩
  · rintro ⟨ha, hab, hb⟩
    exact ⟨a, ha, b, ⟨by omega, by omega⟩, rfl, rfl⟩

theorem indexPairs_cons (n i : Nat) (is : List Nat) :
    indexPairs n (i :: is) =
      (List.range' (i + 1) (n - (i + 1))).map (fun j => (i, j)) ++ indexPairs n is := by
  simp [indexPairs]

theorem isSquare_replicate (n : Nat) (v : ℚ) :
    IsSquare n (List.replicate n (List.replicate n v)) := by
  refine ⟨by simp, ?_⟩
  intro row hrow
  rw [(List.mem_replicate.mp hrow).2]
  simp

theorem matGet_replicate (n : Nat) (v : ℚ) (a b : Nat) (ha : a < n) (hb : b < n) :
    matGet (List.replicate n (List.replicate n v)) a b = some v := by
  simp [matGet, List.getElem?_replicate, ha, hb]

/-! ## Facts about `createSimilarityMatrix` -/

/-- The contribution of one entry of `profileA` to the similarity index. -/
theorem similarityLoop_eq (profileB : List (String × ℚ)) (l : List (String × ℚ)) :
    ∀ acc : ℚ, similarityLoop profileB l acc =
      acc + (l.map (fun e =>
        if e.1 ∈ profileB.map Prod.fst then e.2 * weight profileB e.1 else 0)).sum := by
  induction l with
  | nil => intro acc; simp [similarityLoop]
  | cons e rest ih =>
    intro acc
    obtain ⟨word, freqA⟩ := e
    by_cases hmem : word ∈ profileB.map Prod.fst
    · have hcount : UMap.count profileB word ≠ 0 := (UMap.count_ne_zero_iff _ _).mpr hmem
      cases hat : UMap.at profileB word with
      | none => exact absurd ((UMap.at_eq_none_iff _ _).mp hat) (not_not.mpr hmem)
      | some freqB =>
        simp only [similarityLoop, hcount, ne_eq, not_false_eq_true, if_true, hat, ih,
          List.map_cons, List.sum_cons, hmem, weight, Option.getD_some]
        ring
    · have hcount : ¬ UMap.count profileB word ≠ 0 := fun h =>
        hmem ((UMap.count_ne_zero_iff _ _).mp h)
      simp only [similarityLoop, hcount, if_false, ih, List.map_cons, List.sum_cons, hmem]
      ring

theorem sharedTermsDot_eq (profileA profileB : List (String × ℚ)) (hwf : UMap.WF profileA) :
    sharedTermsDot profileA profileB =
      (profileA.map (fun e =>
        if e.1 ∈ profileB.map Prod.fst then e.2 * weight profileB e.1 else 0)).sum := by
  unfold sharedTermsDot terms
  rw [← Finset.filter_mem_eq_inter, Finset.sum_filter, List.sum_toFinset _ hwf, List.map_map]
  congr 1
  apply List.map_congr_left
  intro e he
  have hat : UMap.at profileA e.1 = some e.2 :=
    UMap.at_eq_some_of_mem profileA hwf e.1 e.2 he
  simp only [Function.comp, weight, hat, Option.getD_some, List.mem_toFinset]

theorem similarityLoop_eq_sharedTermsDot (profileA profileB : List (String × ℚ))
    (hwf : UMap.WF profileA) :
    similarityLoop profileB profileA 0 = sharedTermsDot profileA profileB := by
  rw [similarityLoop_eq, sharedTermsDot_eq profileA profileB hwf, zero_add]

theorem createRowLoop_eq (filenames : List String)
    (bookProfiles : List (String × List (String × ℚ)))
    (hprof : ∀ k, k < filenames.length → (profileOf filenames bookProfiles k).isSome)
    (i : Nat) (hi : i < filenames.length) (js : List Nat) :
    (∀ j ∈ js, j < filenames.length) → ∀ M : List (List ℚ),
      createRowLoop filenames bookProfiles i js M =
        some ((js.map (fun j => (i, j))).foldl (pairStep (scoreOf filenames bookProfiles)) M) := by
  induction js with
  | nil => intro _ M; simp [createRowLoop]
  | cons j rest ih =>
    intro hjs M
    have hj : j < filenames.length := hjs j (List.mem_cons_self _ _)
    have hrest : ∀ k ∈ rest, k < filenames.length := fun k hk =>
      hjs k (List.mem_cons_of_mem _ hk)
    obtain ⟨pA, hA⟩ := Option.isSome_iff_exists.mp (hprof i hi)
    obtain ⟨pB, hB⟩ := Option.isSome_iff_exists.mp (hprof j hj)
    have hA2 : UMap.at bookProfiles filenames[i] = some pA := by
      simpa [profileOf, List.getElem?_eq_getElem hi] using hA
    have hB2 : UMap.at bookProfiles filenames[j] = some pB := by
      simpa [profileOf, List.getElem?_eq_getElem hj] using hB
    simp only [createRowLoop, List.getElem?_eq_getElem hi, List.getElem?_eq_getElem hj, hA2, hB2]
    rw [ih hrest]
    simp [pairStep, scoreOf, hA, hB]

theorem createMatrixLoop_eq (filenames : List String)
    (bookProfiles : List (String × List (String × ℚ)))
    (hprof : ∀ k, k < filenames.length → (profileOf filenames bookProfiles k).isSome)
    (is : List Nat) :
    (∀ i ∈ is, i < filenames.length) → ∀ M : List (List ℚ),
      createMatrixLoop filenames bookProfiles filenames.length is M =
        some ((indexPairs filenames.length is).foldl
          (pairStep (scoreOf filenames bookProfiles)) M) := by
  induction is with
  | nil => intro _ M; simp [createMatrixLoop, indexPairs]
  | cons i rest ih =>
    intro his M
    have hi : i < filenames.length := his i (List.mem_cons_self _ _)
    have hrest : ∀ k ∈ rest, k < filenames.length := fun k hk =>
      his k (List.mem_cons_of_mem _ hk)
    have hjs : ∀ j ∈ List.range' (i + 1) (filenames.length - (i + 1)), j < filenames.length := by
      intro j hj
      have := List.mem_range'_1.mp hj
      omega
    simp only [createMatrixLoop]
    rw [createRowLoop_eq filenames bookProfiles hprof i hi _ hjs M]
    simp only
    rw [ih hrest, indexPairs_cons, List.foldl_append]

theorem createSimilarityMatrix_eq (filenames : List String)
    (bookProfiles : List (String × List (String × ℚ)))
    (hprof : ∀ k, k < filenames.length → (profileOf filenames bookProfiles k).isSome) :
    createSimilarityMatrix filenames bookProfiles =
      some ((indexPairs filenames.length (List.range filenames.length)).foldl
        (pairStep (scoreOf filenames bookProfiles))
        (List.replicate filenames.length (List.replicate filenames.length 0))) := by
  unfold createSimilarityMatrix
  exact createMatrixLoop_eq filenames bookProfiles hprof _
    (fun i hi => List.mem_range.mp hi) _

theorem matGet_createSimilarityMatrix (filenames : List String)
    (bookProfiles : List (String × List (String × ℚ)))
    (hprof : ∀ k, k < filenames.length → (profileOf filenames bookProfiles k).isSome) :
    ∃ M, createSimilarityMatrix filenames bookProfiles = some M ∧
      IsSquare filenames.length M ∧
      ∀ a b, a < filenames.length → b < filenames.length →
        matGet M a b =
          if a < b then some (scoreOf filenames bookProfiles a b)
          else if b < a then some (scoreOf filenames bookProfiles b a) else some 0 := by
  refine ⟨_, createSimilarityMatrix_eq filenames bookProfiles hprof,
    isSquare_foldl_pairStep _ _ _ _ (isSquare_replicate _ 0), ?_⟩
  intro a b ha hb
  have hps : ∀ p ∈ indexPairs filenames.length (List.range filenames.length),
      p.1 < p.2 ∧ p.2 < filenames.length := by
    intro p hp
    obtain ⟨x, y⟩ := p
    exact ((mem_indexPairs _ _ x y).mp hp).2
  rw [matGet_foldl_pairStep _ _ _ hps _ (isSquare_replicate _ 0) a b]
  simp only [mem_indexPairs, List.mem_range, matGet_replicate _ _ a b ha hb]
  by_cases h1 : a < b
  · simp [h1, ha, hb]
  · by_cases h2 : b < a
    · simp [h1, h2, ha, hb]
    · simp [h1, h2]

theorem profileOf_isSome_of_at (filenames : List String)
    (bookProfiles : List (String × List (String × ℚ)))
    (h : ∀ name ∈ filenames, (UMap.at bookProfiles name).isSome) :
    ∀ k, k < filenames.length → (profileOf filenames bookProfiles k).isSome := by
  intro k hk
  have := h filenames[k] (List.getElem_mem _)
  simpa [profileOf, List.getElem?_eq_getElem hk] using this

/-! ## Facts about `countWords` and `processBooks` -/

theorem countWordsLoop_eq (words : List (List Char)) (state : List (String × Int) × Int) :
    countWordsLoop words state = state := by
  induction words with
  | nil => rfl
  | cons word rest ih => simpa [countWordsLoop] using ih

theorem countWords_eq (fs : FileSystem) (filename : String) (totalWords : Int) :
    countWords fs filename totalWords = ([], totalWords) := by
  simp [countWords, countWordsLoop_eq]

theorem getTopNormalizedWords_nil (totalWords : Int) :
    getTopNormalizedWords [] totalWords = [] := by
  simp [getTopNormalizedWords, getTopNormalizedWordsWith, stdSort, normalizeLoop]

theorem at_processBooksLoop (fs : FileSystem) (filenames : List String) :
    ∀ (bookProfiles : List (String × List (String × ℚ))) (name : String),
      UMap.at (processBooksLoop fs filenames bookProfiles) name =
        if name ∈ filenames then some [] else UMap.at bookProfiles name := by
  induction filenames with
  | nil => intro bookProfiles name; simp [processBooksLoop]
  | cons filename rest ih =>
    intro bookProfiles name
    simp only [processBooksLoop, countWords_eq, getTopNormalizedWords_nil, ih, UMap.at_assign,
      List.mem_cons]
    by_cases h1 : name ∈ rest
    · simp [h1]
    · by_cases h2 : filename = name
      · simp [h1, h2]
      · have h3 : ¬ name = filename := fun h => h2 h.symm
        simp [h1, h2, h3]

/-! ## Facts about the priority queue -/

theorem tupleLess_iff (a b : ℚ × Nat × Nat) : tupleLess a b = true ↔ lexKey a < lexKey b := by
  obtain ⟨s, i, j⟩ := a
  obtain ⟨s2, i2, j2⟩ := b
  simp only [tupleLess, lexKey, Prod.Lex.lt_iff, Bool.or_eq_true, Bool.and_eq_true,
    decide_eq_true_eq, Bool.not_eq_true', decide_eq_false_iff_not, not_lt, ofLex_toLex]
  constructor
  · rintro (h | ⟨h1, h2⟩)
    · exact Or.inl h
    · rcases lt_or_eq_of_le h1 with h3 | h3
      · exact Or.inl h3
      · refine Or.inr ⟨h3, ?_⟩
        rcases h2 with h4 | ⟨h4, h5⟩
        · exact Or.inl h4
        · rcases Nat.lt_or_eq_of_le h4 with h6 | h6
          · exact Or.inl h6
          · exact Or.inr ⟨h6, h5⟩
  · rintro (h | ⟨h1, h2⟩)
    · exact Or.inl h
    · refine Or.inr ⟨le_of_eq h1, ?_⟩
      rcases h2 with h4 | ⟨h4, h5⟩
      · exact Or.inl h4
      · exact Or.inr ⟨le_of_eq h4, h5⟩

theorem lexKey_injective (a b : ℚ × Nat × Nat) (h : lexKey a = lexKey b) : a = b := by
  obtain ⟨s, i, j⟩ := a
  obtain ⟨s2, i2, j2⟩ := b
  simp only [lexKey, EmbeddingLike.apply_eq_iff_eq, Prod.mk.injEq] at h
  simp [h.1, h.2.1, h.2.2]

theorem score_le_of_lexKey_le (a b : ℚ × Nat × Nat) (h : lexKey a ≤ lexKey b) : a.1 ≤ b.1 := by
  rcases (Prod.Lex.le_iff _ _).mp h with h1 | h1
  · exact le_of_lt h1
  · exact le_of_eq h1.1

theorem pqTop_eq_none (heap : List (ℚ × Nat × Nat)) (h : pqTop heap = none) : heap = [] := by
  cases heap with
  | nil => rfl
  | cons x rest =>
    simp only [pqTop] at h
    cases hrest : pqTop rest with
    | none => simp [hrest] at h
    | some y =>
      rw [hrest] at h
      by_cases hlt : tupleLess x y = true
      · simp [hlt] at h
      · simp [hlt] at h

theorem pqTop_spec (heap : List (ℚ × Nat × Nat)) :
    ∀ t, pqTop heap = some t → t ∈ heap ∧ ∀ x ∈ heap, lexKey x ≤ lexKey t := by
  induction heap with
  | nil => intro t h; simp [pqTop] at h
  | cons x rest ih =>
    intro t h
    simp only [pqTop] at h
    cases hrest : pqTop rest with
    | none =>
      rw [hrest] at h
      have hnil := pqTop_eq_none rest hrest
      simp only [Option.some.injEq] at h
      subst h; subst hnil
      simp
    | some y =>
      rw [hrest] at h
      obtain ⟨hy, hmax⟩ := ih y hrest
      by_cases hlt : tupleLess x y = true
      · simp only [hlt, if_true, Option.some.injEq] at h
        subst h
        refine ⟨List.mem_cons_of_mem _ hy, ?_⟩
        intro z hz
        rcases List.mem_cons.mp hz with hz | hz
        · rw [hz]; exact le_of_lt ((tupleLess_iff x y).mp hlt)
        · exact hmax z hz
      · simp only [hlt, Bool.false_eq_true, if_false, Option.some.injEq] at h
        subst h
        have hle : lexKey y ≤ lexKey x := not_lt.mp (fun hc => hlt ((tupleLess_iff x y).mpr hc))
        refine ⟨List.mem_cons_self _ _, ?_⟩
        intro z hz
        rcases List.mem_cons.mp hz with hz | hz
        · rw [hz]
        · exact le_trans (hmax z hz) hle

theorem pqPop_of_top (heap : List (ℚ × Nat × Nat)) (t : ℚ × Nat × Nat)
    (h : pqTop heap = some t) : pqPop heap = heap.erase t := by
  simp [pqPop, h]

/-! ## Facts about the retrieval loop -/

theorem retrieveLoop_acc (k : Nat) :
    ∀ (heap : List (ℚ × Nat × Nat)) (acc : List (Nat × Nat × ℚ)),
      retrieveLoop k heap acc = acc ++ retrieveLoop k heap [] := by
  induction k with
  | zero => intro heap acc; simp [retrieveLoop]
  | succ k ih =>
    intro heap acc
    cases htop : pqTop heap with
    | none => simp [retrieveLoop, htop]
    | some t =>
      obtain ⟨s, a, b⟩ := t
      simp only [retrieveLoop, htop]
      rw [ih _ (acc ++ [(a, b, s)]), ih _ ([] ++ [(a, b, s)])]
      simp

theorem retrieveLoop_succ (k : Nat) (heap : List (ℚ × Nat × Nat)) (t : ℚ × Nat × Nat)
    (h : pqTop heap = some t) :
    retrieveLoop (k + 1) heap [] = (t.2.1, t.2.2, t.1) :: retrieveLoop k (heap.erase t) [] := by
  obtain ⟨s, a, b⟩ := t
  simp only [retrieveLoop, h]
  rw [retrieveLoop_acc, pqPop_of_top heap _ h]
  simp

theorem retrieveLoop_nil (k : Nat) : retrieveLoop k [] [] = [] := by
  cases k with
  | zero => rfl
  | succ k => simp [retrieveLoop, pqTop]

theorem retrieveLoop_length (k : Nat) :
    ∀ heap : List (ℚ × Nat × Nat), (retrieveLoop k heap []).length = min k heap.length := by
  induction k with
  | zero => intro heap; simp [retrieveLoop]
  | succ k ih =>
    intro heap
    cases htop : pqTop heap with
    | none =>
      rw [pqTop_eq_none heap htop, retrieveLoop_nil]
      simp
    | some t =>
      have hmem := (pqTop_spec heap t htop).1
      rw [retrieveLoop_succ k heap t htop, List.length_cons, ih, List.length_erase_of_mem hmem]
      have hpos : 0 < heap.length := List.length_pos_of_mem hmem
      omega

theorem retrieveLoop_mem (k : Nat) :
    ∀ (heap : List (ℚ × Nat × Nat)) (r : Nat × Nat × ℚ),
      r ∈ retrieveLoop k heap [] → (r.2.2, r.1, r.2.1) ∈ heap := by
  induction k with
  | zero => intro heap r h; simp [retrieveLoop] at h
  | succ k ih =>
    intro heap r h
    cases htop : pqTop heap with
    | none =>
      rw [pqTop_eq_none heap htop, retrieveLoop_nil] at h
      simp at h
    | some t =>
      rw [retrieveLoop_succ k heap t htop] at h
      rcases List.mem_cons.mp h with h1 | h1
      · rw [h1]; exact (pqTop_spec heap t htop).1
      · exact List.mem_of_mem_erase (ih _ r h1)

theorem retrieveLoop_sorted (k : Nat) :
    ∀ heap : List (ℚ × Nat × Nat),
      (retrieveLoop k heap []).Pairwise
        (fun p q => lexKey (q.2.2, q.1, q.2.1) ≤ lexKey (p.2.2, p.1, p.2.1)) := by
  induction k with
  | zero => intro heap; simp [retrieveLoop]
  | succ k ih =>
    intro heap
    cases htop : pqTop heap with
    | none =>
      rw [pqTop_eq_none heap htop, retrieveLoop_nil]
      exact List.Pairwise.nil
    | some t =>
      rw [retrieveLoop_succ k heap t htop]
      refine List.Pairwise.cons ?_ (ih _)
      intro q hq
      exact (pqTop_spec heap t htop).2 _ (List.mem_of_mem_erase (retrieveLoop_mem k _ q hq))

theorem retrieveLoop_dominates (k : Nat) :
    ∀ (heap : List (ℚ × Nat × Nat)) (x : ℚ × Nat × Nat), x ∈ heap →
      (x.2.1, x.2.2, x.1) ∈ retrieveLoop k heap [] ∨
        ∀ r ∈ retrieveLoop k heap [], lexKey x ≤ lexKey (r.2.2, r.1, r.2.1) := by
  induction k with
  | zero => intro heap x _; right; simp [retrieveLoop]
  | succ k ih =>
    intro heap x hx
    cases htop : pqTop heap with
    | none =>
      rw [pqTop_eq_none heap htop] at hx
      simp at hx
    | some t =>
      rw [retrieveLoop_succ k heap t htop]
      by_cases hxt : x = t
      · left; rw [hxt]; exact List.mem_cons_self _ _
      · have hx2 : x ∈ heap.erase t := (List.mem_erase_of_ne hxt).mpr hx
        rcases ih _ x hx2 with h1 | h1
        · left; exact List.mem_cons_of_mem _ h1
        · right
          intro r hr
          rcases List.mem_cons.mp hr with h2 | h2
          · rw [h2]; exact (pqTop_spec heap t htop).2 x hx
          · exact h1 r h2

/-! ## Facts about `findTopSimilarPairs` -/

theorem matGet_eq_entry (n : Nat) (M : List (List ℚ)) (hM : IsSquare n M) (i j : Nat)
    (hi : i < n) (hj : j < n) : matGet M i j = some (entry M i j) := by
  have hi2 : i < M.length := by rw [hM.1]; exact hi
  have hlen : (M[i]).length = n := hM.2 _ (List.getElem_mem _)
  have hj2 : j < (M[i]).length := by rw [hlen]; exact hj
  simp [entry, matGet, List.getElem?_eq_getElem hi2, List.getElem?_eq_getElem hj2]

theorem fillRowLoop_eq (n : Nat) (M : List (List ℚ)) (hM : IsSquare n M) (i : Nat)
    (hi : i < n) (js : List Nat) :
    (∀ j ∈ js, j < n) → ∀ heap : List (ℚ × Nat × Nat),
      fillRowLoop M i js heap =
        some (((js.map (fun j => (i, j))).map
          (fun p => (entry M p.1 p.2, p.1, p.2))).reverse ++ heap) := by
  induction js with
  | nil => intro _ heap; simp [fillRowLoop]
  | cons j rest ih =>
    intro hjs heap
    have hj : j < n := hjs j (List.mem_cons_self _ _)
    have hrest : ∀ k ∈ rest, k < n := fun k hk => hjs k (List.mem_cons_of_mem _ hk)
    simp only [fillRowLoop, matGet_eq_entry n M hM i j hi hj]
    rw [ih hrest]
    simp [pqEmplace]

theorem fillHeapLoop_eq (n : Nat) (M : List (List ℚ)) (hM : IsSquare n M) (is : List Nat) :
    (∀ i ∈ is, i < n) → ∀ heap : List (ℚ × Nat × Nat),
      fillHeapLoop M n is heap =
        some (((indexPairs n is).map
          (fun p => (entry M p.1 p.2, p.1, p.2))).reverse ++ heap) := by
  induction is with
  | nil => intro _ heap; simp [fillHeapLoop, indexPairs]
  | cons i rest ih =>
    intro his heap
    have hi : i < n := his i (List.mem_cons_self _ _)
    have hrest : ∀ k ∈ rest, k < n := fun k hk => his k (List.mem_cons_of_mem _ hk)
    have hjs : ∀ j ∈ List.range' (i + 1) (n - (i + 1)), j < n := by
      intro j hj
      have := List.mem_range'_1.mp hj
      omega
    simp only [fillHeapLoop]
    rw [fillRowLoop_eq n M hM i hi _ hjs heap]
    simp only
    rw [ih hrest, indexPairs_cons]
    simp

theorem findTopSimilarPairs_eq (n : Nat) (M : List (List ℚ)) (hM : IsSquare n M) (K : Int) :
    findTopSimilarPairs M K = some (retrieveLoop K.toNat (heapOf M) []) := by
  unfold findTopSimilarPairs heapOf
  simp only [hM.1]
  rw [fillHeapLoop_eq n M hM _ (fun i hi => List.mem_range.mp hi) []]
  simp

theorem mem_heapOf (n : Nat) (M : List (List ℚ)) (hM : IsSquare n M) (x : ℚ × Nat × Nat) :
    x ∈ heapOf M ↔ x.2.1 < x.2.2 ∧ x.2.2 < n ∧ x.1 = entry M x.2.1 x.2.2 := by
  obtain ⟨s, i, j⟩ := x
  unfold heapOf
  rw [hM.1]
  simp only [List.mem_reverse, List.mem_map, Prod.mk.injEq, Prod.exists, mem_indexPairs,
    List.mem_range]
  constructor
  · rintro ⟨a, b, ⟨_, hab, hb⟩, hs, ha2, hb2⟩
    subst ha2; subst hb2
    exact ⟨hab, hb, hs.symm⟩
  · rintro ⟨hij, hj, hs⟩
    exact ⟨i, j, ⟨by omega, hij, hj⟩, hs.symm, rfl, rfl⟩

theorem length_indexPairs (n : Nat) :
    (indexPairs n (List.range n)).length = n * (n - 1) / 2 := by
  have h1 : (indexPairs n (List.range n)).length
      = ((List.range n).map (fun i => n - (i + 1))).sum := by
    simp [indexPairs, List.length_flatMap, Function.comp_def]
  have h2 : ((List.range n).map (fun i => n - (i + 1))).sum
      = ∑ i ∈ Finset.range n, (n - 1 - i) := by
    rw [← List.sum_toFinset _ (List.nodup_range n)]
    exact Finset.sum_congr (by ext i; simp) (fun i _ => by omega)
  rw [h1, h2, Finset.sum_range_reflect (fun i => i) n, Finset.sum_range_id]

theorem length_heapOf (n : Nat) (M : List (List ℚ)) (hM : IsSquare n M) :
    (heapOf M).length = n * (n - 1) / 2 := by
  unfold heapOf
  rw [hM.1]
  simp [length_indexPairs]

/-! ## The similarity matrix: claims C1 and C2 -/

/-- C2: when the profile map holds a profile for every file name, the matrix
`createSimilarityMatrix` returns has `M[i][j] = M[j][i]` for all `i ≠ j` below
`n`. -/
theorem createSimilarityMatrix_symmetric (filenames : List String)
    (bookProfiles : List (String × List (String × ℚ)))
    (hprofiles : ∀ name ∈ filenames, (UMap.at bookProfiles name).isSome)
    (i j : Nat) (hi : i < filenames.length) (hj : j < filenames.length) (hij : i ≠ j) :
    ∃ M v, createSimilarityMatrix filenames bookProfiles = some M ∧
      matGet M i j = some v ∧ matGet M j i = some v := by
  have hprof := profileOf_isSome_of_at filenames bookProfiles hprofiles
  obtain ⟨M, hM, _, hget⟩ := matGet_createSimilarityMatrix filenames bookProfiles hprof
  rcases Nat.lt_or_gt_of_ne hij with h | h
  · refine ⟨M, scoreOf filenames bookProfiles i j, hM, ?_, ?_⟩
    · rw [hget i j hi hj, if_pos h]
    · rw [hget j i hj hi, if_neg (by omega), if_pos h]
  · refine ⟨M, scoreOf filenames bookProfiles j i, hM, ?_, ?_⟩
    · rw [hget i j hi hj, if_neg (by omega), if_pos h]
    · rw [hget j i hj hi, if_pos h]

theorem createSimilarityMatrix_symmetric_witness :
    ∃ M v,
      createSimilarityMatrix ["x", "y", "z"]
          [("x", [("CAT", 1 / 6), ("SAT", 1 / 2)]), ("y", [("SAT", 1 / 3), ("ON", 1 / 3)]),
            ("z", [("SAT", 1 / 4)])]
        = some M ∧
      matGet M 2 0 = some v ∧ matGet M 0 2 = some v :=
  createSimilarityMatrix_symmetric ["x", "y", "z"]
    [("x", [("CAT", 1 / 6), ("SAT", 1 / 2)]), ("y", [("SAT", 1 / 3), ("ON", 1 / 3)]),
      ("z", [("SAT", 1 / 4)])]
    (by decide) 2 0 (by decide) (by decide) (by decide)

/-! ## The most similar pairs: claims C3 to C6 -/

/-- C3: for an `n × n` matrix and `topPairsCount = K ≥ 0`, `findTopSimilarPairs`
returns the `K` highest-scoring pairs: the result has `min(K, n(n-1)/2)`
elements, and every index pair `(i, j)` with `i < j < n` that is not in the
result has `matrix[i][j]` less than or equal to the score of every returned
pair. -/
theorem findTopSimilarPairs_highest (n : Nat) (M : List (List ℚ)) (hM : IsSquare n M)
    (K : Int) (hK : 0 ≤ K) :
    ∃ topPairs, findTopSimilarPairs M K = some topPairs ∧
      (topPairs.length : Int) = min K ((n * (n - 1) / 2 : Nat) : Int) ∧
      ∀ i j, i < j → j < n → (∀ r ∈ topPairs, (r.1, r.2.1) ≠ (i, j)) →
        ∃ v, matGet M i j = some v ∧ ∀ r ∈ topPairs, v ≤ r.2.2 := by
  refine ⟨_, findTopSimilarPairs_eq n M hM K, ?_, ?_⟩
  · rw [retrieveLoop_length, length_heapOf n M hM, Nat.cast_min, Int.toNat_of_nonneg hK]
  · intro i j hij hj hnot
    refine ⟨entry M i j, matGet_eq_entry n M hM i j (by omega) hj, ?_⟩
    have hmem : (entry M i j, i, j) ∈ heapOf M :=
      (mem_heapOf n M hM _).mpr ⟨hij, hj, rfl⟩
    rcases retrieveLoop_dominates K.toNat (heapOf M) _ hmem with h | h
    · exact absurd rfl (hnot _ h)
    · intro r hr
      exact score_le_of_lexKey_le _ _ (h r hr)

theorem findTopSimilarPairs_highest_witness :
    ∃ topPairs,
      findTopSimilarPairs [[0, 1 / 6, 2 / 9], [1 / 6, 0, 1 / 9], [2 / 9, 1 / 9, 0]] 2
        = some topPairs ∧
      (topPairs.length : Int) = min (2 : Int) ((3 * (3 - 1) / 2 : Nat) : Int) ∧
      ∀ i j, i < j → j < 3 → (∀ r ∈ topPairs, (r.1, r.2.1) ≠ (i, j)) →
        ∃ v, matGet [[0, 1 / 6, 2 / 9], [1 / 6, 0, 1 / 9], [2 / 9, 1 / 9, 0]] i j = some v ∧
          ∀ r ∈ topPairs, v ≤ r.2.2 :=
  findTopSimilarPairs_highest 3 [[0, 1 / 6, 2 / 9], [1 / 6, 0, 1 / 9], [2 / 9, 1 / 9, 0]]
    (by decide) 2 (by decide)

/-- C4: for an `n × n` matrix and any `topPairsCount`, the list
`findTopSimilarPairs` returns is ordered by score descending: the score at a
position `p` is greater than or equal to the score at any later position `q`. -/
theorem findTopSimilarPairs_descending (n : Nat) (M : List (List ℚ)) (hM : IsSquare n M)
    (K : Int) :
    ∃ topPairs, findTopSimilarPairs M K = some topPairs ∧
      ∀ (p q : Nat) (x y : Nat × Nat × ℚ), p < q →
        topPairs[p]? = some x → topPairs[q]? = some y → y.2.2 ≤ x.2.2 := by
  refine ⟨_, findTopSimilarPairs_eq n M hM K, ?_⟩
  intro p q x y hpq hx hy
  have hsorted := retrieveLoop_sorted K.toNat (heapOf M)
  obtain ⟨hp, hxe⟩ := List.getElem?_eq_some.mp hx
  obtain ⟨hq, hye⟩ := List.getElem?_eq_some.mp hy
  have := List.pairwise_iff_getElem.mp hsorted p q hp hq hpq
  rw [hxe, hye] at this
  exact score_le_of_lexKey_le _ _ this

theorem findTopSimilarPairs_descending_witness :
    ∃ topPairs,
      findTopSimilarPairs [[0, 1 / 6, 2 / 9], [1 / 6, 0, 1 / 9], [2 / 9, 1 / 9, 0]] 10
        = some topPairs ∧
      ∀ (p q : Nat) (x y : Nat × Nat × ℚ), p < q →
        topPairs[p]? = some x → topPairs[q]? = some y → y.2.2 ≤ x.2.2 :=
  findTopSimilarPairs_descending 3 [[0, 1 / 6, 2 / 9], [1 / 6, 0, 1 / 9], [2 / 9, 1 / 9, 0]]
    (by decide) 10

/-- C5: for an `n × n` matrix and `topPairsCount = K ≥ 0`, the list
`findTopSimilarPairs` returns has `min(K, n(n-1)/2)` elements; it is empty when
`n ≤ 1`, and it has exactly 1 element when `K = 10` and `n = 2`. -/
theorem findTopSimilarPairs_length (n : Nat) (M : List (List ℚ)) (hM : IsSquare n M)
    (K : Int) (hK : 0 ≤ K) :
    ∃ topPairs, findTopSimilarPairs M K = some topPairs ∧
      (topPairs.length : Int) = min K ((n * (n - 1) / 2 : Nat) : Int) ∧
      (n ≤ 1 → topPairs = []) ∧
      (K = 10 → n = 2 → topPairs.length = 1) := by
  have hlen : (retrieveLoop K.toNat (heapOf M) []).length = min K.toNat (n * (n - 1) / 2) := by
    rw [retrieveLoop_length, length_heapOf n M hM]
  refine ⟨_, findTopSimilarPairs_eq n M hM K, ?_, ?_, ?_⟩
  · rw [hlen, Nat.cast_min, Int.toNat_of_nonneg hK]
  · intro hn
    apply List.eq_nil_of_length_eq_zero
    rw [hlen]
    have h0 : n * (n - 1) / 2 = 0 := by
      rcases Nat.le_one_iff_eq_zero_or_eq_one.mp hn with h | h <;> subst h <;> rfl
    rw [h0]; exact Nat.min_zero _
  · intro h10 h2
    rw [hlen, h10, h2]
    rfl

theorem findTopSimilarPairs_length_witness :
    ∃ topPairs, findTopSimilarPairs [[0, 1 / 6], [1 / 6, 0]] 10 = some topPairs ∧
      (topPairs.length : Int) = min (10 : Int) ((2 * (2 - 1) / 2 : Nat) : Int) ∧
      (2 ≤ 1 → topPairs = []) ∧
      ((10 : Int) = 10 → 2 = 2 → topPairs.length = 1) :=
  findTopSimilarPairs_length 2 [[0, 1 / 6], [1 / 6, 0]] (by decide) 10 (by decide)

/-- C6: for a similarity matrix (`n × n`) and any `topPairsCount`, every triple
`(A, B, score)` that `findTopSimilarPairs` returns has `A < B`; so no pair
`(i, i)` appears in the result. -/
theorem findTopSimilarPairs_ordered_indices (n : Nat) (M : List (List ℚ))
    (hM : IsSquare n M) (K : Int) :
    ∃ topPairs, findTopSimilarPairs M K = some topPairs ∧
      (∀ r ∈ topPairs, r.1 < r.2.1) ∧ ∀ (i : Nat) (s : ℚ), (i, i, s) ∉ topPairs := by
  have hlt : ∀ r ∈ retrieveLoop K.toNat (heapOf M) [], r.1 < r.2.1 := by
    intro r hr
    exact ((mem_heapOf n M hM _).mp (retrieveLoop_mem K.toNat (heapOf M) r hr)).1
  refine ⟨_, findTopSimilarPairs_eq n M hM K, hlt, ?_⟩
  intro i s hmem
  exact absurd (hlt _ hmem) (Nat.lt_irrefl i)

theorem findTopSimilarPairs_ordered_indices_witness :
    ∃ topPairs,
      findTopSimilarPairs [[0, 1 / 6, 2 / 9], [1 / 6, 0, 1 / 9], [2 / 9, 1 / 9, 0]] 10
        = some topPairs ∧
      (∀ r ∈ topPairs, r.1 < r.2.1) ∧ ∀ (i : Nat) (s : ℚ), (i, i, s) ∉ topPairs :=
  findTopSimilarPairs_ordered_indices 3
    [[0, 1 / 6, 2 / 9], [1 / 6, 0, 1 / 9], [2 / 9, 1 / 9, 0]] (by decide) 10

/-! ## The profile of a document: claims C7 to C9 -/

/-- C7: for a word-count map (each term held once) and any `totalWords`, the
profile `getTopNormalizedWords` returns has exactly
`min(100, number of terms of the map)` entries, hence at most
`TOP_WORDS_COUNT = 100`. -/
theorem getTopNormalizedWords_size (wordCount : List (String × Int))
    (hwf : UMap.WF wordCount) (totalWords : Int) :
    UMap.size (getTopNormalizedWords wordCount totalWords) = min 100 (UMap.size wordCount) ∧
      UMap.size (getTopNormalizedWords wordCount totalWords) ≤ TOP_WORDS_COUNT ∧
      TOP_WORDS_COUNT = 100 := by
  have hlen : (stdSort wordCount).length = wordCount.length :=
    (stdSort_perm wordCount).length_eq
  have hsize : UMap.size (getTopNormalizedWords wordCount totalWords)
      = min 100 (UMap.size wordCount) := by
    rw [getTopNormalizedWords_eq wordCount hwf]
    simp [UMap.size, hlen, TOP_WORDS_COUNT]
  refine ⟨hsize, ?_, rfl⟩
  rw [hsize]
  exact Nat.min_le_left _ _

theorem getTopNormalizedWords_size_witness :
    UMap.WF [("CAT", (1 : Int)), ("SAT", 3), ("ON", 2)] ∧
      (UMap.size (getTopNormalizedWords [("CAT", 1), ("SAT", 3), ("ON", 2)] 6)
          = min 100 (UMap.size [("CAT", (1 : Int)), ("SAT", 3), ("ON", 2)]) ∧
        UMap.size (getTopNormalizedWords [("CAT", 1), ("SAT", 3), ("ON", 2)] 6)
          ≤ TOP_WORDS_COUNT ∧
        TOP_WORDS_COUNT = 100) :=
  ⟨by decide, getTopNormalizedWords_size [("CAT", 1), ("SAT", 3), ("ON", 2)] (by decide) 6⟩

/-- C9: when every count of the word-count map is at least 1 and at most
`totalWords`, every term of the profile `getTopNormalizedWords` returns has a
weight `w` with `0 < w ≤ 1`. -/
theorem getTopNormalizedWords_bounds (wordCount : List (String × Int))
    (hwf : UMap.WF wordCount) (totalWords : Int)
    (hcounts : ∀ e ∈ wordCount, 1 ≤ e.2 ∧ e.2 ≤ totalWords)
    (t : String) (w : ℚ)
    (h : UMap.at (getTopNormalizedWords wordCount totalWords) t = some w) :
    0 < w ∧ w ≤ 1 := by
  obtain ⟨c, _, hmem, hw⟩ := getTopNormalizedWords_entry wordCount hwf totalWords t w h
  obtain ⟨h1, h2⟩ := hcounts (t, c) hmem
  simp only at h1 h2
  have hc : (0 : ℚ) < (c : ℚ) := by exact_mod_cast (by omega : (0 : Int) < c)
  have ht : (0 : ℚ) < (totalWords : ℚ) := by exact_mod_cast (by omega : (0 : Int) < totalWords)
  have hle : (c : ℚ) ≤ (totalWords : ℚ) := by exact_mod_cast h2
  rw [hw]
  exact ⟨div_pos hc ht, (div_le_one ht).mpr hle⟩

theorem getTopNormalizedWords_bounds_witness :
    (∀ e ∈ [("CAT", (1 : Int)), ("SAT", 3), ("ON", 2)], 1 ≤ e.2 ∧ e.2 ≤ (6 : Int)) ∧
      UMap.at (getTopNormalizedWords [("CAT", 1), ("SAT", 3), ("ON", 2)] 6) "ON"
        = some (1 / 3) ∧
      (0 : ℚ) < 1 / 3 ∧ (1 / 3 : ℚ) ≤ 1 :=
  ⟨by decide, by decide!,
    getTopNormalizedWords_bounds [("CAT", 1), ("SAT", 3), ("ON", 2)] (by decide) 6
      (by decide) "ON" (1 / 3) (by decide!)⟩

/-! ## The word count as the program performs it: claim C10 -/

/-- C10: whatever the files hold, `countWords` returns the empty word-count map
and the value of `totalWords` it was given; so `processBooks` maps every file
name of its list to the empty profile, and `createSimilarityMatrix` on those
profiles returns the `n × n` matrix whose entries are all 0. -/
theorem countWords_counts_nothing (fs : FileSystem) (filenames : List String) :
    (∀ (filename : String) (totalWords : Int),
        countWords fs filename totalWords = ([], totalWords)) ∧
      (∀ name ∈ filenames, UMap.at (processBooks fs filenames) name = some []) ∧
      ∃ M, createSimilarityMatrix filenames (processBooks fs filenames) = some M ∧
        IsSquare filenames.length M ∧
        ∀ i j, i < filenames.length → j < filenames.length → matGet M i j = some 0 := by
  have hat : ∀ name ∈ filenames, UMap.at (processBooks fs filenames) name = some [] := by
    intro name hname
    simp [processBooks, at_processBooksLoop, hname]
  refine ⟨countWords_eq fs, hat, ?_⟩
  have hprof : ∀ k, k < filenames.length →
      profileOf filenames (processBooks fs filenames) k = some [] := by
    intro k hk
    simpa [profileOf, List.getElem?_eq_getElem hk] using hat filenames[k] (List.getElem_mem _)
  obtain ⟨M, hM, hsq, hget⟩ := matGet_createSimilarityMatrix filenames
    (processBooks fs filenames) (fun k hk => by rw [hprof k hk]; rfl)
  refine ⟨M, hM, hsq, ?_⟩
  intro i j hi hj
  rw [hget i j hi hj]
  have hscore : ∀ a b, a < filenames.length →
      scoreOf filenames (processBooks fs filenames) a b = 0 := by
    intro a b ha
    simp [scoreOf, hprof a ha, similarityLoop]
  by_cases h1 : i < j
  · simp [h1, hscore i j hi]
  · by_cases h2 : j < i
    · simp [h1, h2, hscore j i hj]
    · simp [h1, h2]

/-! ## Further facts about the map model and `processBooks` -/

theorem keys_assign {β : Type} (m : List (String × β)) (k : String) (v : β) :
    (UMap.assign m k v).map Prod.fst =
      if k ∈ m.map Prod.fst then m.map Prod.fst else m.map Prod.fst ++ [k] := by
  induction m with
  | nil => simp [UMap.assign]
  | cons e rest ih =>
    by_cases h : e.1 = k
    · simp [UMap.assign, h]
    · have h2 : ¬ k = e.1 := fun h3 => h h3.symm
      by_cases h3 : k ∈ rest.map Prod.fst
      · simp only [UMap.assign, h, if_false, List.map_cons, ih, h3, if_true, List.mem_cons,
          or_true]
      · simp only [UMap.assign, h, if_false, List.map_cons, ih, h3, List.mem_cons, h2,
          or_self, List.cons_append]

theorem wf_assign {β : Type} (m : List (String × β)) (hwf : UMap.WF m) (k : String) (v : β) :
    UMap.WF (UMap.assign m k v) := by
  unfold UMap.WF at hwf ⊢
  rw [keys_assign]
  by_cases h : k ∈ m.map Prod.fst
  · simpa [h] using hwf
  · simp only [h, if_false]
    refine List.nodup_append.mpr ⟨hwf, List.nodup_singleton k, ?_⟩
    intro a ha hb
    rw [List.mem_singleton.mp hb] at ha
    exact h ha

theorem wf_processBooksLoop (fs : FileSystem) (filenames : List String) :
    ∀ bookProfiles : List (String × List (String × ℚ)), UMap.WF bookProfiles →
      UMap.WF (processBooksLoop fs filenames bookProfiles) := by
  induction filenames with
  | nil => intro bookProfiles h; exact h
  | cons filename rest ih =>
    intro bookProfiles h
    simp only [processBooksLoop]
    exact ih _ (wf_assign _ h _ _)

theorem similarityLoop_disjoint (profileB : List (String × ℚ)) (l : List (String × ℚ))
    (h : ∀ e ∈ l, e.1 ∉ profileB.map Prod.fst) (acc : ℚ) :
    similarityLoop profileB l acc = acc := by
  rw [similarityLoop_eq]
  have hz : (l.map (fun e =>
      if e.1 ∈ profileB.map Prod.fst then e.2 * weight profileB e.1 else 0)).sum = 0 := by
    apply List.sum_eq_zero
    intro x hx
    obtain ⟨e, he, hxe⟩ := List.mem_map.mp hx
    rw [← hxe, if_neg (h e he)]
  rw [hz, add_zero]

/-! ## Scenario A, disjoint profiles, the key set of the corpus: claims C11 to C13 -/

/-- C11 (what the program computes on scenario A): each of the two documents
has 6 words, yet `countWords` returns the empty map and leaves `totalWords` at
0, both profiles are empty, and the similarity of `X` and `Y` is 0, not the
`3/36` of the specification. -/
theorem scenarioA_evaluation :
    (extractWords "THE CAT SAT ON THE MAT".toList []).length = 6 ∧
      (extractWords "A CAT SAT ON A HAT".toList []).length = 6 ∧
      countWords scenarioA "X" 0 = ([], 0) ∧
      countWords scenarioA "Y" 0 = ([], 0) ∧
      processBooks scenarioA ["X", "Y"] = [("X", []), ("Y", [])] ∧
      createSimilarityMatrix ["X", "Y"] (processBooks scenarioA ["X", "Y"])
        = some [[0, 0], [0, 0]] ∧
      (0 : ℚ) ≠ 3 / 36 := by
  refine ⟨by decide, by decide, countWords_eq _ _ _, countWords_eq _ _ _, ?_, ?_, by norm_num⟩
  · simp [processBooks, processBooksLoop, countWords_eq, getTopNormalizedWords_nil,
      UMap.assign]
  · simp [processBooks, processBooksLoop, countWords_eq, getTopNormalizedWords_nil,
      UMap.assign, createSimilarityMatrix, createMatrixLoop, createRowLoop, UMap.at,
      similarityLoop, matSet, List.range, List.range.loop, List.range']

/-- C12: when the profile map holds a profile for every file name and the
profiles of two documents at positions `i ≠ j` have no term in common (as when
one of them is empty), the score `createSimilarityMatrix` writes for `(i, j)` is
exactly 0. -/
theorem createSimilarityMatrix_disjoint (filenames : List String)
    (bookProfiles : List (String × List (String × ℚ)))
    (hprofiles : ∀ name ∈ filenames, (UMap.at bookProfiles name).isSome)
    (i j : Nat) (hi : i < filenames.length) (hj : j < filenames.length) (hij : i ≠ j)
    (profileA profileB : List (String × ℚ))
    (hA : profileOf filenames bookProfiles i = some profileA)
    (hB : profileOf filenames bookProfiles j = some profileB)
    (hdisjoint : terms profileA ∩ terms profileB = ∅) :
    ∃ M, createSimilarityMatrix filenames bookProfiles = some M ∧ matGet M i j = some 0 := by
  have hprof := profileOf_isSome_of_at filenames bookProfiles hprofiles
  obtain ⟨M, hM, _, hget⟩ := matGet_createSimilarityMatrix filenames bookProfiles hprof
  have hAB : ∀ e ∈ profileA, e.1 ∉ profileB.map Prod.fst := by
    intro e he hmem
    have h1 : e.1 ∈ terms profileA ∩ terms profileB := by
      simp only [terms, Finset.mem_inter, List.mem_toFinset]
      exact ⟨List.mem_map_of_mem Prod.fst he, hmem⟩
    rw [hdisjoint] at h1
    exact absurd h1 (Finset.not_mem_empty _)
  have hBA : ∀ e ∈ profileB, e.1 ∉ profileA.map Prod.fst := by
    intro e he hmem
    have h1 : e.1 ∈ terms profileA ∩ terms profileB := by
      simp only [terms, Finset.mem_inter, List.mem_toFinset]
      exact ⟨hmem, List.mem_map_of_mem Prod.fst he⟩
    rw [hdisjoint] at h1
    exact absurd h1 (Finset.not_mem_empty _)
  refine ⟨M, hM, ?_⟩
  rw [hget i j hi hj]
  rcases Nat.lt_or_gt_of_ne hij with h | h
  · rw [if_pos h]
    simp [scoreOf, hA, hB, similarityLoop_disjoint profileB profileA hAB]
  · rw [if_neg (by omega), if_pos h]
    simp [scoreOf, hA, hB, similarityLoop_disjoint profileA profileB hBA]

theorem createSimilarityMatrix_disjoint_witness :
    ∃ M,
      createSimilarityMatrix ["x", "y", "z"]
          [("x", [("CAT", 1 / 6), ("SAT", 1 / 2)]), ("y", [("MAT", 1 / 3), ("ON", 1 / 3)]),
            ("z", [])]
        = some M ∧
      matGet M 1 0 = some 0 :=
  createSimilarityMatrix_disjoint ["x", "y", "z"]
    [("x", [("CAT", 1 / 6), ("SAT", 1 / 2)]), ("y", [("MAT", 1 / 3), ("ON", 1 / 3)]),
      ("z", [])]
    (by decide) 1 0 (by decide) (by decide) (by decide)
    [("MAT", 1 / 3), ("ON", 1 / 3)] [("CAT", 1 / 6), ("SAT", 1 / 2)] rfl rfl (by decide)

/-- C13: the map `processBooks` returns holds each key once, and its keys are
exactly the file names of the input list, whether or not the files can be
opened; so it has one entry for each distinct file name. -/
theorem processBooks_keys (fs : FileSystem) (filenames : List String) :
    UMap.WF (processBooks fs filenames) ∧
      (∀ name, name ∈ (processBooks fs filenames).map Prod.fst ↔ name ∈ filenames) ∧
      UMap.size (processBooks fs filenames) = filenames.toFinset.card := by
  have hwf : UMap.WF (processBooks fs filenames) :=
    wf_processBooksLoop fs filenames [] List.nodup_nil
  have hkeys : ∀ name, name ∈ (processBooks fs filenames).map Prod.fst ↔ name ∈ filenames := by
    intro name
    have hat := at_processBooksLoop fs filenames [] name
    by_cases h : name ∈ filenames
    · have hne : UMap.at (processBooks fs filenames) name ≠ none := by
        simp [processBooks, hat, h]
      have := (UMap.at_eq_none_iff (processBooks fs filenames) name).not.mp hne
      simpa [h] using this
    · have hnone : UMap.at (processBooks fs filenames) name = none := by
        simp [processBooks, hat, h, UMap.at]
      have := (UMap.at_eq_none_iff (processBooks fs filenames) name).mp hnone
      simpa [h] using this
  refine ⟨hwf, hkeys, ?_⟩
  have hset : ((processBooks fs filenames).map Prod.fst).toFinset = filenames.toFinset := by
    ext name
    simp only [List.mem_toFinset]
    exact hkeys name
  rw [← hset, List.toFinset_card_of_nodup hwf]
  simp [UMap.size]

/-! ## Further facts about `getTopNormalizedWords` -/

theorem sum_normalized (totalWords : Int) (l : List (String × Int)) :
    ((l.map (normalized totalWords)).map Prod.snd).sum
      = (((l.map Prod.snd).sum : Int) : ℚ) / (totalWords : ℚ) := by
  induction l with
  | nil => simp
  | cons e rest ih =>
    simp only [List.map_cons, List.sum_cons, ih, normalized, Int.cast_add]
    rw [add_div]

theorem sum_take_le (l : List (String × Int)) (hpos : ∀ e ∈ l, 0 < e.2) (k : Nat) :
    ((l.take k).map Prod.snd).sum ≤ (l.map Prod.snd).sum := by
  have hsplit : (l.map Prod.snd).sum
      = ((l.take k).map Prod.snd).sum + ((l.drop k).map Prod.snd).sum := by
    rw [← List.sum_append, ← List.map_append, List.take_append_drop]
  have hdrop : 0 ≤ ((l.drop k).map Prod.snd).sum := by
    apply List.sum_nonneg
    intro x hx
    obtain ⟨e, he, hxe⟩ := List.mem_map.mp hx
    rw [← hxe]
    exact le_of_lt (hpos e (List.mem_of_mem_drop he))
  omega

theorem mem_take_or_drop {α : Type} (l : List α) (k : Nat) (x : α) (h : x ∈ l) :
    x ∈ l.take k ∨ x ∈ l.drop k := by
  rw [← List.take_append_drop k l] at h
  exact List.mem_append.mp h

theorem take_ge_drop (l : List (String × Int))
    (hsorted : l.Pairwise (fun a b => ¬ byFrequency b a)) (k : Nat)
    (a b : String × Int) (ha : a ∈ l.take k) (hb : b ∈ l.drop k) : b.2 ≤ a.2 := by
  rw [← List.take_append_drop k l] at hsorted
  have h := (List.pairwise_append.mp hsorted).2.2 a ha b hb
  simpa [byFrequency] using h

theorem stdSort_sorted (l : List (String × Int)) :
    (stdSort l).Pairwise (fun a b => ¬ byFrequency b a) := by
  have : IsTotal (String × Int) (fun a b => ¬ byFrequency b a) :=
    ⟨fun a b => by simp only [byFrequency, gt_iff_lt, not_lt]; exact le_total _ _⟩
  have : IsTrans (String × Int) (fun a b => ¬ byFrequency b a) :=
    ⟨fun a b c h1 h2 => by
      simp only [byFrequency, gt_iff_lt, not_lt] at h1 h2 ⊢
      exact le_trans h2 h1⟩
  exact List.sorted_insertionSort (fun a b => ¬ byFrequency b a) l

/-! ## The profile of a document: claims C15 and C16 -/

/-- C15: for a document with zero words, the empty word-count map and
`totalWords = 0`, `getTopNormalizedWords` returns the empty profile and its loop
performs no division, so no division by zero takes place. -/
theorem getTopNormalizedWords_zero_words :
    getTopNormalizedWords [] 0 = [] ∧ divisionsPerformed [] 0 = [] ∧
      ∀ d ∈ divisionsPerformed [] 0, d.2 ≠ 0 := by
  have h : divisionsPerformed [] 0 = [] := by
    simp [divisionsPerformed, stdSort]
  refine ⟨getTopNormalizedWords_nil 0, h, ?_⟩
  intro d hd
  rw [h] at hd
  exact absurd hd (List.not_mem_nil d)

/-- C16: whatever sorted rearrangement the sort produces (so whatever the order
of tied terms), the terms `getTopNormalizedWords` retains are the most frequent
ones: a term of the word-count map that is not in the profile has a count less
than or equal to the count of every term that is in the profile. -/
theorem getTopNormalizedWords_keeps_highest
    (sort : List (String × Int) → List (String × Int))
    (hperm : ∀ l, (sort l).Perm l)
    (hsorted : ∀ l, (sort l).Pairwise (fun a b => ¬ byFrequency b a))
    (wordCount : List (String × Int)) (hwf : UMap.WF wordCount) (totalWords : Int)
    (t : String) (c : Int) (t2 : String) (c2 : Int)
    (ht : UMap.at wordCount t = some c)
    (hout : UMap.at (getTopNormalizedWordsWith sort wordCount totalWords) t = none)
    (ht2 : UMap.at wordCount t2 = some c2)
    (hin : (UMap.at (getTopNormalizedWordsWith sort wordCount totalWords) t2).isSome) :
    c ≤ c2 := by
  rw [getTopNormalizedWordsWith_eq sort hperm wordCount hwf] at hout hin
  -- the retained term comes from the first `min 100 size` elements
  obtain ⟨w, hw⟩ := Option.isSome_iff_exists.mp hin
  obtain ⟨e2, he2, heq2⟩ := List.mem_map.mp (UMap.mem_of_at_eq_some _ _ _ hw)
  have he2wc : e2 ∈ wordCount := (hperm wordCount).mem_iff.mp (List.mem_of_mem_take he2)
  have hkey2 : e2.1 = t2 := by simpa [normalized] using congrArg Prod.fst heq2
  have hc2 : e2.2 = c2 := by
    have h1 : UMap.at wordCount t2 = some e2.2 :=
      UMap.at_eq_some_of_mem wordCount hwf t2 e2.2 (by rw [← hkey2]; exact he2wc)
    rw [ht2] at h1
    exact (Option.some.inj h1).symm
  -- the term left out comes from the remaining elements
  have hmem : (t, c) ∈ sort wordCount :=
    (hperm wordCount).mem_iff.mpr (UMap.mem_of_at_eq_some _ _ _ ht)
  have hdrop : (t, c) ∈ (sort wordCount).drop (min TOP_WORDS_COUNT wordCount.length) := by
    rcases mem_take_or_drop _ (min TOP_WORDS_COUNT wordCount.length) _ hmem with h | h
    · exfalso
      have hnot := (UMap.at_eq_none_iff _ _).mp hout
      apply hnot
      rw [List.map_map]
      exact List.mem_map.mpr ⟨(t, c), h, rfl⟩
    · exact h
  have hle := take_ge_drop (sort wordCount) (hsorted wordCount) _ e2 (t, c) he2 hdrop
  rw [hc2] at hle
  exact hle

theorem getTopNormalizedWords_keeps_highest_witness :
    UMap.at (getTopNormalizedWords
        ((List.range 101).map (fun i => (String.mk (List.replicate i (Char.ofNat 97)), (i : Int)))) 5050)
      "" = none ∧ (0 : Int) ≤ 3 :=
  ⟨by decide!,
    getTopNormalizedWords_keeps_highest stdSort stdSort_perm stdSort_sorted
      ((List.range 101).map (fun i => (String.mk (List.replicate i (Char.ofNat 97)), (i : Int))))
      (by decide!) 5050 "" 0 "aaa" 3 (by decide!) (by decide!) (by decide!) (by decide!)⟩

/-! ## Further facts about `findTopSimilarPairs` -/

theorem nodup_indexPairs (n : Nat) : (indexPairs n (List.range n)).Nodup := by
  unfold indexPairs
  rw [List.nodup_flatMap]
  constructor
  · intro i _
    refine List.Nodup.map ?_ (List.nodup_range' _ _)
    intro a b hab
    exact (Prod.mk.inj hab).2
  · refine (List.nodup_range n).imp ?_
    intro a b hab
    intro x hxa hxb
    obtain ⟨_, _, h1⟩ := List.mem_map.mp hxa
    obtain ⟨_, _, h2⟩ := List.mem_map.mp hxb
    rw [← h2] at h1
    exact hab (Prod.mk.inj h1).1

theorem nodup_heapOf (M : List (List ℚ)) : (heapOf M).Nodup := by
  unfold heapOf
  rw [List.nodup_reverse]
  refine List.Nodup.map ?_ (nodup_indexPairs M.length)
  intro p q hpq
  simp only [Prod.mk.injEq] at hpq
  exact Prod.ext hpq.2.1 hpq.2.2

theorem retrieveLoop_strict (k : Nat) :
    ∀ heap : List (ℚ × Nat × Nat), heap.Nodup →
      (retrieveLoop k heap []).Pairwise
        (fun p q => lexKey (q.2.2, q.1, q.2.1) < lexKey (p.2.2, p.1, p.2.1)) := by
  induction k with
  | zero => intro heap _; simp [retrieveLoop]
  | succ k ih =>
    intro heap hnd
    cases htop : pqTop heap with
    | none =>
      rw [pqTop_eq_none heap htop, retrieveLoop_nil]
      exact List.Pairwise.nil
    | some t =>
      rw [retrieveLoop_succ k heap t htop]
      refine List.Pairwise.cons ?_ (ih _ (hnd.erase t))
      intro q hq
      have hmem := retrieveLoop_mem k _ q hq
      have hne : (q.2.2, q.1, q.2.1) ≠ t := ((List.Nodup.mem_erase_iff hnd).mp hmem).1
      have hle := (pqTop_spec heap t htop).2 _ (List.mem_of_mem_erase hmem)
      have ht : lexKey (t.1, t.2.1, t.2.2) = lexKey t := rfl
      rw [ht]
      exact lt_of_le_of_ne hle (fun h => hne (lexKey_injective _ _ h))

theorem lexKey_lt_iff (a b : ℚ × Nat × Nat) :
    lexKey a < lexKey b ↔
      a.1 < b.1 ∨ (a.1 = b.1 ∧ (a.2.1 < b.2.1 ∨ (a.2.1 = b.2.1 ∧ a.2.2 < b.2.2))) := by
  simp [lexKey, Prod.Lex.lt_iff]

theorem findTopSimilarPairs_strict (n : Nat) (M : List (List ℚ)) (hM : IsSquare n M)
    (K : Int) :
    ∃ topPairs, findTopSimilarPairs M K = some topPairs ∧
      (∀ r ∈ topPairs, r.1 < r.2.1 ∧ r.2.1 < n ∧ r.2.2 = entry M r.1 r.2.1) ∧
      ∀ (p q : Nat) (x y : Nat × Nat × ℚ), p < q →
        topPairs[p]? = some x → topPairs[q]? = some y →
        y.2.2 < x.2.2 ∨ (y.2.2 = x.2.2 ∧ (y.1 < x.1 ∨ (y.1 = x.1 ∧ y.2.1 < x.2.1))) := by
  refine ⟨_, findTopSimilarPairs_eq n M hM K, ?_, ?_⟩
  · intro r hr
    exact (mem_heapOf n M hM _).mp (retrieveLoop_mem K.toNat (heapOf M) r hr)
  · intro p q x y hpq hx hy
    have hstrict := retrieveLoop_strict K.toNat (heapOf M) (nodup_heapOf M)
    obtain ⟨hp, hxe⟩ := List.getElem?_eq_some.mp hx
    obtain ⟨hq, hye⟩ := List.getElem?_eq_some.mp hy
    have h := List.pairwise_iff_getElem.mp hstrict p q hp hq hpq
    rw [hxe, hye] at h
    exact (lexKey_lt_iff _ _).mp h

/-! ## The order of the result: claims C14, C18 and C20 -/

/-- C14 as the specification states it fails: on the 3 × 3 matrix whose scores
are all `1/6`, with `topPairsCount = 2`, the result is `(1, 2)` then `(0, 2)`,
although the loops discover `(0, 2)` before `(1, 2)`. -/
theorem findTopSimilarPairs_ties_counterexample :
    findTopSimilarPairs [[0, 1 / 6, 1 / 6], [1 / 6, 0, 1 / 6], [1 / 6, 1 / 6, 0]] 2
        = some [(1, 2, 1 / 6), (0, 2, 1 / 6)] ∧
      ¬ TiesInDiscoveryOrder [(1, 2, 1 / 6), (0, 2, 1 / 6)] := by
  refine ⟨by decide!, ?_⟩
  intro h
  have h1 := h 1 0 (0, 2, 1 / 6) (1, 2, 1 / 6) rfl rfl rfl (Or.inl (by decide))
  exact absurd h1 (by decide)

/-- C14 (amended): in the list `findTopSimilarPairs` returns for an `n × n`
matrix, ties are broken by the index pair, larger first: whenever two returned
pairs have equal scores, the pair the double loop discovers last (the
lexicographically larger `(i, j)`) appears earlier in the result. -/
theorem findTopSimilarPairs_ties (n : Nat) (M : List (List ℚ)) (hM : IsSquare n M)
    (K : Int) :
    ∃ topPairs, findTopSimilarPairs M K = some topPairs ∧
      TiesInReverseDiscoveryOrder topPairs := by
  obtain ⟨topPairs, hfind, _, hstrict⟩ := findTopSimilarPairs_strict n M hM K
  refine ⟨topPairs, hfind, ?_⟩
  intro p q x y hx hy hscore hbefore
  unfold discoveredBefore at hbefore
  by_contra hpq
  rcases Nat.lt_or_eq_of_le (Nat.le_of_not_lt hpq) with h | h
  · rcases hstrict q p y x h hy hx with h1 | ⟨_, h1⟩
    · rw [hscore] at h1
      exact lt_irrefl _ h1
    · omega
  · subst h
    rw [hx] at hy
    have hxy : x = y := Option.some.inj hy
    subst hxy
    omega

theorem findTopSimilarPairs_ties_witness :
    ∃ topPairs,
      findTopSimilarPairs [[0, 1 / 6, 1 / 6], [1 / 6, 0, 1 / 6], [1 / 6, 1 / 6, 0]] 2
        = some topPairs ∧
      TiesInReverseDiscoveryOrder topPairs :=
  findTopSimilarPairs_ties 3 [[0, 1 / 6, 1 / 6], [1 / 6, 0, 1 / 6], [1 / 6, 1 / 6, 0]]
    (by decide) 2

/-- C18: the list `findTopSimilarPairs` returns for an `n × n` matrix is
strictly decreasing in the lexicographic order on `(score, A, B)`: of two
positions `p < q`, the later one has a smaller score, or the same score and a
smaller `A`, or the same score and `A` and a smaller `B`; and no index pair is
returned twice. -/
theorem findTopSimilarPairs_strictly_decreasing (n : Nat) (M : List (List ℚ))
    (hM : IsSquare n M) (K : Int) :
    ∃ topPairs, findTopSimilarPairs M K = some topPairs ∧
      (∀ (p q : Nat) (x y : Nat × Nat × ℚ), p < q →
        topPairs[p]? = some x → topPairs[q]? = some y →
        y.2.2 < x.2.2 ∨ (y.2.2 = x.2.2 ∧ (y.1 < x.1 ∨ (y.1 = x.1 ∧ y.2.1 < x.2.1)))) ∧
      (topPairs.map (fun r => (r.1, r.2.1))).Nodup := by
  obtain ⟨topPairs, hfind, hmem, hstrict⟩ := findTopSimilarPairs_strict n M hM K
  refine ⟨topPairs, hfind, hstrict, ?_⟩
  rw [List.Nodup, List.pairwise_map, List.pairwise_iff_getElem]
  intro p q hp hq hpq hsame
  have hx : topPairs[p]? = some topPairs[p] := List.getElem?_eq_getElem hp
  have hy : topPairs[q]? = some topPairs[q] := List.getElem?_eq_getElem hq
  have hsx := (hmem _ (List.getElem_mem hp)).2.2
  have hsy := (hmem _ (List.getElem_mem hq)).2.2
  have h1 : (topPairs[p]).1 = (topPairs[q]).1 := (Prod.mk.inj hsame).1
  have h2 : (topPairs[p]).2.1 = (topPairs[q]).2.1 := (Prod.mk.inj hsame).2
  have hscore : (topPairs[q]).2.2 = (topPairs[p]).2.2 := by rw [hsx, hsy, h1, h2]
  rcases hstrict p q _ _ hpq hx hy with h | ⟨_, h⟩
  · rw [hscore] at h
    exact lt_irrefl _ h
  · omega

theorem findTopSimilarPairs_strictly_decreasing_witness :
    ∃ topPairs,
      findTopSimilarPairs [[0, 1 / 6, 1 / 6], [1 / 6, 0, 2 / 9], [1 / 6, 2 / 9, 0]] 3
        = some topPairs ∧
      (∀ (p q : Nat) (x y : Nat × Nat × ℚ), p < q →
        topPairs[p]? = some x → topPairs[q]? = some y →
        y.2.2 < x.2.2 ∨ (y.2.2 = x.2.2 ∧ (y.1 < x.1 ∨ (y.1 = x.1 ∧ y.2.1 < x.2.1)))) ∧
      (topPairs.map (fun r => (r.1, r.2.1))).Nodup :=
  findTopSimilarPairs_strictly_decreasing 3
    [[0, 1 / 6, 1 / 6], [1 / 6, 0, 2 / 9], [1 / 6, 2 / 9, 0]] (by decide) 3

/-- C20: every triple `(A, B, score)` that `findTopSimilarPairs` returns for an
`n × n` matrix has `B < n` and `score = matrix[A][B]`. -/
theorem findTopSimilarPairs_reports_matrix (n : Nat) (M : List (List ℚ))
    (hM : IsSquare n M) (K : Int) :
    ∃ topPairs, findTopSimilarPairs M K = some topPairs ∧
      ∀ r ∈ topPairs, r.2.1 < n ∧ matGet M r.1 r.2.1 = some r.2.2 := by
  refine ⟨_, findTopSimilarPairs_eq n M hM K, ?_⟩
  intro r hr
  obtain ⟨hlt, hn, hs⟩ := (mem_heapOf n M hM _).mp (retrieveLoop_mem K.toNat (heapOf M) r hr)
  simp only at hlt hn hs
  refine ⟨hn, ?_⟩
  rw [hs]
  exact matGet_eq_entry n M hM _ _ (by omega) hn

theorem findTopSimilarPairs_reports_matrix_witness :
    ∃ topPairs,
      findTopSimilarPairs [[0, 1 / 6, 2 / 9], [1 / 6, 0, 1 / 9], [2 / 9, 1 / 9, 0]] 2
        = some topPairs ∧
      ∀ r ∈ topPairs, r.2.1 < 3 ∧
        matGet [[0, 1 / 6, 2 / 9], [1 / 6, 0, 1 / 9], [2 / 9, 1 / 9, 0]] r.1 r.2.1
          = some r.2.2 :=
  findTopSimilarPairs_reports_matrix 3
    [[0, 1 / 6, 2 / 9], [1 / 6, 0, 1 / 9], [2 / 9, 1 / 9, 0]] (by decide) 2

/-! ## The exact dot product is symmetric -/

theorem sharedTermsDot_comm (P Q : List (String × ℚ)) :
    sharedTermsDot P Q = sharedTermsDot Q P := by
  unfold sharedTermsDot
  rw [Finset.inter_comm]
  exact Finset.sum_congr rfl (fun t _ => mul_comm _ _)

/-! ## Facts about the arithmetic of `double` -/

theorem normalizeLoopDouble_eq (totalWords : Int) (l : List (String × Int)) :
    ∀ topWords : List (String × ℚ),
      (topWords.map Prod.fst ++ l.map Prod.fst).Nodup →
      normalizeLoopDouble totalWords l topWords =
        topWords ++ l.map (fun e => (e.1, doubleDiv (e.2 : ℚ) (totalWords : ℚ))) := by
  induction l with
  | nil => intro topWords _; simp [normalizeLoopDouble]
  | cons e rest ih =>
    intro topWords hnd
    obtain ⟨word, count⟩ := e
    have hnot : word ∉ topWords.map Prod.fst := by
      intro hmem
      exact (List.nodup_append.mp hnd).2.2 hmem (by simp)
    have hnd2 : ((topWords ++ [(word, doubleDiv (count : ℚ) (totalWords : ℚ))]).map Prod.fst
        ++ rest.map Prod.fst).Nodup := by
      simpa using hnd
    simp only [normalizeLoopDouble]
    rw [UMap.assign_of_not_mem _ _ _ hnot, ih _ hnd2]
    simp

theorem getTopNormalizedWordsDouble_eq (wordCount : List (String × Int))
    (hwf : UMap.WF wordCount) (totalWords : Int) :
    getTopNormalizedWordsDouble wordCount totalWords =
      (getTopNormalizedWords wordCount totalWords).map (fun e => (e.1, roundDouble e.2)) := by
  rw [getTopNormalizedWords_eq wordCount hwf]
  unfold getTopNormalizedWordsDouble
  have hlen : (stdSort wordCount).length = wordCount.length :=
    (stdSort_perm wordCount).length_eq
  have hnd : ((stdSort wordCount).map Prod.fst).Nodup :=
    (((stdSort_perm wordCount).map Prod.fst).nodup_iff).mpr hwf
  have hnd2 : (((stdSort wordCount).take (min TOP_WORDS_COUNT wordCount.length)).map
      Prod.fst).Nodup := by
    rw [List.map_take]
    exact hnd.sublist (List.take_sublist _ _)
  simp only [hlen]
  rw [normalizeLoopDouble_eq _ _ _ (by simpa using hnd2)]
  simp [normalized, doubleDiv, Function.comp_def]

theorem similarityLoopDouble_disjoint (profileB : List (String × ℚ)) (l : List (String × ℚ)) :
    (∀ e ∈ l, e.1 ∉ profileB.map Prod.fst) → ∀ acc : ℚ,
      similarityLoopDouble profileB l acc = acc := by
  induction l with
  | nil => intro _ acc; rfl
  | cons e rest ih =>
    intro h acc
    obtain ⟨word, freqA⟩ := e
    have hnot : ¬ UMap.count profileB word ≠ 0 := fun hc =>
      h (word, freqA) (List.mem_cons_self _ _) ((UMap.count_ne_zero_iff _ _).mp hc)
    simp only [similarityLoopDouble, hnot, if_false]
    exact ih (fun e he => h e (List.mem_cons_of_mem _ he)) acc

theorem similarityLoopDouble_single (profileB : List (String × ℚ)) (k : String) (b : ℚ)
    (hb : UMap.at profileB k = some b) (l : List (String × ℚ)) :
    UMap.WF l → (∀ e ∈ l, e.1 ∈ profileB.map Prod.fst → e.1 = k) →
      ∀ (a : ℚ), (k, a) ∈ l → ∀ acc : ℚ,
        similarityLoopDouble profileB l acc = doubleAdd acc (doubleMul a b) := by
  induction l with
  | nil => intro _ _ a ha; simp at ha
  | cons e rest ih =>
    intro hwf honly a ha acc
    obtain ⟨word, freqA⟩ := e
    have hnd : word ∉ rest.map Prod.fst ∧ (rest.map Prod.fst).Nodup := by
      simpa [UMap.WF] using hwf
    by_cases hk : word = k
    · subst hk
      have hfa : freqA = a := by
        rcases List.mem_cons.mp ha with h | h
        · exact (Prod.mk.inj h).2.symm
        · exact absurd (List.mem_map_of_mem Prod.fst h) hnd.1
      have hcount : UMap.count profileB word ≠ 0 := by
        simp [UMap.count, hb]
      have hrest : ∀ e ∈ rest, e.1 ∉ profileB.map Prod.fst := by
        intro e he hmem
        have := honly e (List.mem_cons_of_mem _ he) hmem
        exact hnd.1 (this ▸ List.mem_map_of_mem Prod.fst he)
      simp only [similarityLoopDouble, hcount, ne_eq, not_false_eq_true, if_true, hb]
      rw [similarityLoopDouble_disjoint profileB rest hrest, hfa]
    · have hnot : ¬ UMap.count profileB word ≠ 0 := fun hc =>
        hk (honly (word, freqA) (List.mem_cons_self _ _) ((UMap.count_ne_zero_iff _ _).mp hc))
      have ha2 : (k, a) ∈ rest := by
        rcases List.mem_cons.mp ha with h | h
        · exact absurd (Prod.mk.inj h).1.symm hk
        · exact h
      simp only [similarityLoopDouble, hnot, if_false]
      exact ih hnd.2 (fun e he => honly e (List.mem_cons_of_mem _ he)) a ha2 acc

theorem similarityLoopDouble_comm_of_card_le_one (P Q : List (String × ℚ))
    (hP : UMap.WF P) (hQ : UMap.WF Q) (hcard : (terms P ∩ terms Q).card ≤ 1) :
    similarityLoopDouble Q P 0 = similarityLoopDouble P Q 0 := by
  rcases Nat.eq_zero_or_pos (terms P ∩ terms Q).card with h0 | hpos
  · have hempty : terms P ∩ terms Q = ∅ := Finset.card_eq_zero.mp h0
    have hPQ : ∀ e ∈ P, e.1 ∉ Q.map Prod.fst := by
      intro e he hmem
      have h1 : e.1 ∈ terms P ∩ terms Q := by
        simp only [terms, Finset.mem_inter, List.mem_toFinset]
        exact ⟨List.mem_map_of_mem Prod.fst he, hmem⟩
      rw [hempty] at h1
      exact absurd h1 (Finset.not_mem_empty _)
    have hQP : ∀ e ∈ Q, e.1 ∉ P.map Prod.fst := by
      intro e he hmem
      have h1 : e.1 ∈ terms P ∩ terms Q := by
        simp only [terms, Finset.mem_inter, List.mem_toFinset]
        exact ⟨hmem, List.mem_map_of_mem Prod.fst he⟩
      rw [hempty] at h1
      exact absurd h1 (Finset.not_mem_empty _)
    rw [similarityLoopDouble_disjoint Q P hPQ, similarityLoopDouble_disjoint P Q hQP]
  · obtain ⟨k, hk⟩ := Finset.card_eq_one.mp (le_antisymm hcard hpos)
    have hkmem : k ∈ terms P ∩ terms Q := by rw [hk]; exact Finset.mem_singleton_self k
    simp only [terms, Finset.mem_inter, List.mem_toFinset] at hkmem
    have honlyP : ∀ e ∈ P, e.1 ∈ Q.map Prod.fst → e.1 = k := by
      intro e he hmem
      have h1 : e.1 ∈ terms P ∩ terms Q := by
        simp only [terms, Finset.mem_inter, List.mem_toFinset]
        exact ⟨List.mem_map_of_mem Prod.fst he, hmem⟩
      rw [hk] at h1
      exact Finset.mem_singleton.mp h1
    have honlyQ : ∀ e ∈ Q, e.1 ∈ P.map Prod.fst → e.1 = k := by
      intro e he hmem
      have h1 : e.1 ∈ terms P ∩ terms Q := by
        simp only [terms, Finset.mem_inter, List.mem_toFinset]
        exact ⟨hmem, List.mem_map_of_mem Prod.fst he⟩
      rw [hk] at h1
      exact Finset.mem_singleton.mp h1
    obtain ⟨eP, heP, hePk⟩ := List.mem_map.mp hkmem.1
    obtain ⟨eQ, heQ, heQk⟩ := List.mem_map.mp hkmem.2
    have hPa : (k, eP.2) ∈ P := by rw [← hePk]; exact heP
    have hQb : (k, eQ.2) ∈ Q := by rw [← heQk]; exact heQ
    have hatP : UMap.at P k = some eP.2 := UMap.at_eq_some_of_mem P hP k _ hPa
    have hatQ : UMap.at Q k = some eQ.2 := UMap.at_eq_some_of_mem Q hQ k _ hQb
    rw [similarityLoopDouble_single Q k eQ.2 hatQ P hP honlyP eP.2 hPa 0,
      similarityLoopDouble_single P k eP.2 hatP Q hQ honlyQ eQ.2 hQb 0]
    simp only [doubleMul, mul_comm]

theorem createSimilarityMatrixDouble_pair (bookProfiles : List (String × List (String × ℚ)))
    (a b : String) (P Q : List (String × ℚ))
    (ha : UMap.at bookProfiles a = some P) (hb : UMap.at bookProfiles b = some Q) :
    createSimilarityMatrixDouble [a, b] bookProfiles =
      some [[0, similarityLoopDouble Q P 0], [similarityLoopDouble Q P 0, 0]] := by
  simp [createSimilarityMatrixDouble, createMatrixLoopDouble, createRowLoopDouble, ha, hb,
    matSet, List.range, List.range.loop, List.range']

/-! ## The error of one rounding -/

theorem pow2_eq_zpow (e : Int) : pow2 e = (2 : ℚ) ^ e := by
  unfold pow2
  by_cases h : 0 ≤ e
  · rw [if_pos h]
    conv_rhs => rw [← Int.toNat_of_nonneg h]
    rw [zpow_natCast]
  · rw [if_neg h]
    have hneg : 0 ≤ -e := by omega
    have he : e = -((-e).toNat : Int) := by rw [Int.toNat_of_nonneg hneg]; omega
    conv_rhs => rw [he]
    rw [zpow_neg, zpow_natCast, one_div]

theorem pow2_pos (e : Int) : 0 < pow2 e := by
  rw [pow2_eq_zpow]
  exact zpow_pos (by norm_num) e

theorem pow2_sub (e : Int) (k : Nat) : pow2 (e - k) = pow2 e / (2 : ℚ) ^ k := by
  rw [pow2_eq_zpow, pow2_eq_zpow, zpow_sub₀ (by norm_num : (2 : ℚ) ≠ 0), zpow_natCast]

theorem halvings_eq_log2 (fuel : Nat) : ∀ n : Nat, n ≤ fuel → halvings fuel n = Nat.log2 n := by
  induction fuel with
  | zero =>
    intro n hn
    have h0 : n = 0 := Nat.le_zero.mp hn
    subst h0
    rw [Nat.log2]
    rfl
  | succ fuel ih =>
    intro n hn
    rw [Nat.log2]
    by_cases h2 : n < 2
    · have hge : ¬ n ≥ 2 := by omega
      simp only [halvings, h2, if_true, hge, if_false]
    · have hge : n ≥ 2 := by omega
      have hhalf : n / 2 ≤ fuel := by omega
      simp only [halvings, h2, if_false, hge, if_true, ih (n / 2) hhalf]

theorem floorLog2_eq_log2 (n : Nat) : floorLog2 n = Nat.log2 n :=
  halvings_eq_log2 n n (Nat.le_refl n)

theorem pow2_binade_le (q : ℚ) (hq : 0 < q) : pow2 (binade q) ≤ q := by
  unfold binade
  simp only
  split
  · assumption
  · have hnum : 0 < q.num := Rat.num_pos.mpr hq
    have hn0 : q.num.natAbs ≠ 0 := by omega
    have hn : (2 : ℚ) ^ (floorLog2 q.num.natAbs) ≤ (q.num.natAbs : ℚ) := by
      rw [floorLog2_eq_log2]
      exact_mod_cast Nat.log2_self_le hn0
    have hd : (q.den : ℚ) ≤ (2 : ℚ) ^ (floorLog2 q.den + 1) := by
      rw [floorLog2_eq_log2]
      exact_mod_cast le_of_lt (Nat.lt_log2_self (n := q.den))
    have hdpos : (0 : ℚ) < (q.den : ℚ) := by exact_mod_cast q.den_pos
    have hqeq : q = (q.num.natAbs : ℚ) / (q.den : ℚ) := by
      have h1 : ((q.num.natAbs : Int) : ℚ) = (q.num : ℚ) := by
        rw [Int.natAbs_of_nonneg (le_of_lt hnum)]
      have h2 : (q.num.natAbs : ℚ) = (q.num : ℚ) := by
        rw [← h1, Int.cast_natCast]
      rw [h2]
      exact (Rat.num_div_den q).symm
    have hexp : ((floorLog2 q.num.natAbs : Int) - (floorLog2 q.den : Int) - 1)
        = (floorLog2 q.num.natAbs : Int) - ((floorLog2 q.den + 1 : Nat) : Int) := by
      push_cast; ring
    rw [hexp, pow2_sub, pow2_eq_zpow, zpow_natCast]
    conv_rhs => rw [hqeq]
    exact div_le_div₀ (by positivity) hn hdpos hd

theorem roundHalfEven_le (x : ℚ) : ((roundHalfEven x : Int) : ℚ) ≤ x + 1 / 2 := by
  unfold roundHalfEven
  have hfloor : ((Rat.floor x : Int) : ℚ) ≤ x := Int.floor_le x
  simp only
  split
  · linarith
  · split
    · push_cast; linarith
    · rename_i h1 h2
      have hr : x - ((Rat.floor x : Int) : ℚ) = 1 / 2 := le_antisymm (not_lt.mp h2) (not_lt.mp h1)
      split
      · linarith
      · push_cast; linarith

theorem roundDoublePos_le (q : ℚ) (hq : 0 < q) (hnormal : pow2 (-1022) ≤ q) :
    roundDoublePos q ≤ q * (1 + 1 / 2 ^ 53) := by
  unfold roundDoublePos
  simp only
  have hulp_pos : 0 < pow2 (max (binade q) (-1022) - 52) := pow2_pos _
  have hulp_le : pow2 (max (binade q) (-1022) - 52) ≤ q / 2 ^ 52 := by
    have h52 : ((52 : Nat) : Int) = 52 := rfl
    rw [← h52, pow2_sub]
    apply div_le_div_of_nonneg_right _ (by positivity)
    rcases max_cases (binade q) (-1022) with ⟨h, _⟩ | ⟨h, _⟩
    · rw [h]; exact pow2_binade_le q hq
    · rw [h]; exact hnormal
  have hround := roundHalfEven_le (q / pow2 (max (binade q) (-1022) - 52))
  calc ((roundHalfEven (q / pow2 (max (binade q) (-1022) - 52)) : Int) : ℚ)
        * pow2 (max (binade q) (-1022) - 52)
      ≤ (q / pow2 (max (binade q) (-1022) - 52) + 1 / 2)
        * pow2 (max (binade q) (-1022) - 52) :=
        mul_le_mul_of_nonneg_right hround (le_of_lt hulp_pos)
    _ = q + pow2 (max (binade q) (-1022) - 52) / 2 := by
        field_simp
        ring
    _ ≤ q + (q / 2 ^ 52) / 2 := by linarith
    _ = q * (1 + 1 / 2 ^ 53) := by ring

theorem roundDouble_le (q : ℚ) (hq : 0 < q) (hnormal : pow2 (-1022) ≤ q) :
    roundDouble q ≤ q * (1 + 1 / 2 ^ 53) := by
  unfold roundDouble
  rw [if_neg (ne_of_gt hq), if_pos hq]
  exact roundDoublePos_le q hq hnormal

theorem sum_roundDouble_le (l : List (String × ℚ))
    (h : ∀ e ∈ l, 0 < e.2 ∧ pow2 (-1022) ≤ e.2) :
    ((l.map (fun e => (e.1, roundDouble e.2))).map Prod.snd).sum
      ≤ (l.map Prod.snd).sum * (1 + 1 / 2 ^ 53) := by
  induction l with
  | nil => simp
  | cons e rest ih =>
    have he := h e (List.mem_cons_self _ _)
    have hrest := ih (fun x hx => h x (List.mem_cons_of_mem _ hx))
    have hround := roundDouble_le e.2 he.1 he.2
    simp only [List.map_cons, List.sum_cons] at hrest ⊢
    rw [add_mul]
    exact add_le_add hround hrest

theorem pow2_normal_le : pow2 (-1022) ≤ 1 / 2 ^ 31 := by
  rw [pow2_eq_zpow]
  have h : (1 : ℚ) / 2 ^ 31 = (2 : ℚ) ^ (-31 : Int) := by
    norm_num
  rw [h]
  exact zpow_le_zpow_right₀ (by norm_num) (by norm_num)

/-! ## Where rounding decides: claims C17 and C19 -/

/-- C17 as the specification states it fails for the weights the program
stores: with eleven terms counted once each and `totalWords = 11`, every stored
weight is the `double` nearest to `1/11`, which is larger than `1/11`, and the
eleven weights sum to `1 + 2^(-55)`; added one after the other as `double`s they
give `1 + 2^(-52)`.  Nine terms with `totalWords = 9` also give `1 + 2^(-52)`
when added as `double`s. -/
theorem getTopNormalizedWordsDouble_sum_counterexample :
    UMap.WF elevenWords ∧ (∀ e ∈ elevenWords, 0 < e.2) ∧
      (elevenWords.map Prod.snd).sum ≤ 11 ∧
      (∀ e ∈ getTopNormalizedWordsDouble elevenWords 11,
        e.2 = 3275345183542179 / 36028797018963968) ∧
      ((getTopNormalizedWordsDouble elevenWords 11).map Prod.snd).sum = 1 + 1 / 2 ^ 55 ∧
      doubleSum ((getTopNormalizedWordsDouble elevenWords 11).map Prod.snd) = 1 + 1 / 2 ^ 52 ∧
      doubleSum ((getTopNormalizedWordsDouble (elevenWords.take 9) 9).map Prod.snd)
        = 1 + 1 / 2 ^ 52 ∧
      ¬ ((getTopNormalizedWordsDouble elevenWords 11).map Prod.snd).sum ≤ 1 := by
  have hweights : (getTopNormalizedWordsDouble elevenWords 11).map Prod.snd
      = [3275345183542179 / 36028797018963968, 3275345183542179 / 36028797018963968, 3275345183542179 / 36028797018963968, 3275345183542179 / 36028797018963968, 3275345183542179 / 36028797018963968, 3275345183542179 / 36028797018963968, 3275345183542179 / 36028797018963968, 3275345183542179 / 36028797018963968, 3275345183542179 / 36028797018963968, 3275345183542179 / 36028797018963968, 3275345183542179 / 36028797018963968] := by
    decide!
  have hweights9 : (getTopNormalizedWordsDouble (elevenWords.take 9) 9).map Prod.snd
      = [2001599834386887 / 18014398509481984, 2001599834386887 / 18014398509481984, 2001599834386887 / 18014398509481984, 2001599834386887 / 18014398509481984, 2001599834386887 / 18014398509481984, 2001599834386887 / 18014398509481984, 2001599834386887 / 18014398509481984, 2001599834386887 / 18014398509481984, 2001599834386887 / 18014398509481984] := by
    decide!
  have ha0 : doubleAdd 0 (3275345183542179 / 36028797018963968) = 3275345183542179 / 36028797018963968 := by decide!
  have ha1 : doubleAdd (3275345183542179 / 36028797018963968) (3275345183542179 / 36028797018963968) = 3275345183542179 / 18014398509481984 := by decide!
  have ha2 : doubleAdd (3275345183542179 / 18014398509481984) (3275345183542179 / 36028797018963968) = 1228254443828317 / 4503599627370496 := by decide!
  have ha3 : doubleAdd (1228254443828317 / 4503599627370496) (3275345183542179 / 36028797018963968) = 3275345183542179 / 9007199254740992 := by decide!
  have ha4 : doubleAdd (3275345183542179 / 9007199254740992) (3275345183542179 / 36028797018963968) = 1023545369856931 / 2251799813685248 := by decide!
  have ha5 : doubleAdd (1023545369856931 / 2251799813685248) (3275345183542179 / 36028797018963968) = 4913017775313269 / 9007199254740992 := by decide!
  have ha6 : doubleAdd (4913017775313269 / 9007199254740992) (3275345183542179 / 36028797018963968) = 2865927035599407 / 4503599627370496 := by decide!
  have ha7 : doubleAdd (2865927035599407 / 4503599627370496) (3275345183542179 / 36028797018963968) = 6550690367084359 / 9007199254740992 := by decide!
  have ha8 : doubleAdd (6550690367084359 / 9007199254740992) (3275345183542179 / 36028797018963968) = 460595416435619 / 562949953421312 := by decide!
  have ha9 : doubleAdd (460595416435619 / 562949953421312) (3275345183542179 / 36028797018963968) = 8188362958855449 / 9007199254740992 := by decide!
  have ha10 : doubleAdd (8188362958855449 / 9007199254740992) (3275345183542179 / 36028797018963968) = 4503599627370497 / 4503599627370496 := by decide!
  have hb0 : doubleAdd 0 (2001599834386887 / 18014398509481984) = 2001599834386887 / 18014398509481984 := by decide!
  have hb1 : doubleAdd (2001599834386887 / 18014398509481984) (2001599834386887 / 18014398509481984) = 2001599834386887 / 9007199254740992 := by decide!
  have hb2 : doubleAdd (2001599834386887 / 9007199254740992) (2001599834386887 / 18014398509481984) = 6004799503160661 / 18014398509481984 := by decide!
  have hb3 : doubleAdd (6004799503160661 / 18014398509481984) (2001599834386887 / 18014398509481984) = 2001599834386887 / 4503599627370496 := by decide!
  have hb4 : doubleAdd (2001599834386887 / 4503599627370496) (2001599834386887 / 18014398509481984) = 2501999792983609 / 4503599627370496 := by decide!
  have hb5 : doubleAdd (2501999792983609 / 4503599627370496) (2001599834386887 / 18014398509481984) = 3002399751580331 / 4503599627370496 := by decide!
  have hb6 : doubleAdd (3002399751580331 / 4503599627370496) (2001599834386887 / 18014398509481984) = 3502799710177053 / 4503599627370496 := by decide!
  have hb7 : doubleAdd (3502799710177053 / 4503599627370496) (2001599834386887 / 18014398509481984) = 4003199668773775 / 4503599627370496 := by decide!
  have hb8 : doubleAdd (4003199668773775 / 4503599627370496) (2001599834386887 / 18014398509481984) = 4503599627370497 / 4503599627370496 := by decide!
  have hlast : (4503599627370497 / 4503599627370496 : ℚ) = 1 + 1 / 2 ^ 52 := by norm_num
  refine ⟨by decide, by decide, by decide, by decide!, by decide!, ?_, ?_, by decide!⟩
  · rw [hweights]
    simp only [doubleSum, List.foldl]
    rw [ha0, ha1, ha2, ha3, ha4, ha5, ha6, ha7, ha8, ha9, ha10]
    exact hlast
  · rw [hweights9]
    simp only [doubleSum, List.foldl]
    rw [hb0, hb1, hb2, hb3, hb4, hb5, hb6, hb7, hb8]
    exact hlast

/-- C17 (amended): for a word-count map with positive counts that sum to at most
`totalWords > 0`, the exact quotients `count / totalWords` of the retained terms
sum to at most 1; the weights the profile stores are these quotients rounded to
`double`, and for `totalWords < 2^31` the stored weights sum to at most
`1 + 2^(-53)`. -/
theorem getTopNormalizedWords_sum (wordCount : List (String × Int))
    (hwf : UMap.WF wordCount) (totalWords : Int) (htotal : 0 < totalWords)
    (hpos : ∀ e ∈ wordCount, 0 < e.2)
    (hsum : (wordCount.map Prod.snd).sum ≤ totalWords) :
    ((getTopNormalizedWords wordCount totalWords).map Prod.snd).sum ≤ 1 ∧
      getTopNormalizedWordsDouble wordCount totalWords =
        (getTopNormalizedWords wordCount totalWords).map (fun e => (e.1, roundDouble e.2)) ∧
      (totalWords < 2 ^ 31 →
        ((getTopNormalizedWordsDouble wordCount totalWords).map Prod.snd).sum
          ≤ 1 + 1 / 2 ^ 53) := by
  have ht : (0 : ℚ) < (totalWords : ℚ) := by exact_mod_cast htotal
  have hexact : ((getTopNormalizedWords wordCount totalWords).map Prod.snd).sum ≤ 1 := by
    rw [getTopNormalizedWords_eq wordCount hwf, sum_normalized]
    have hpos2 : ∀ e ∈ stdSort wordCount, 0 < e.2 := fun e he =>
      hpos e ((stdSort_perm wordCount).mem_iff.mp he)
    have h1 := sum_take_le (stdSort wordCount) hpos2 (min TOP_WORDS_COUNT wordCount.length)
    have h2 : ((stdSort wordCount).map Prod.snd).sum = (wordCount.map Prod.snd).sum :=
      ((stdSort_perm wordCount).map Prod.snd).sum_eq
    have h3 : (((stdSort wordCount).take (min TOP_WORDS_COUNT wordCount.length)).map
        Prod.snd).sum ≤ totalWords := by omega
    rw [div_le_one ht]
    exact_mod_cast h3
  refine ⟨hexact, getTopNormalizedWordsDouble_eq wordCount hwf totalWords, ?_⟩
  intro hint
  rw [getTopNormalizedWordsDouble_eq wordCount hwf totalWords]
  have hweights : ∀ e ∈ getTopNormalizedWords wordCount totalWords,
      0 < e.2 ∧ pow2 (-1022) ≤ e.2 := by
    intro e he
    rw [getTopNormalizedWords_eq wordCount hwf] at he
    obtain ⟨x, hx, hxe⟩ := List.mem_map.mp he
    have hxwc : x ∈ wordCount := (stdSort_perm wordCount).mem_iff.mp (List.mem_of_mem_take hx)
    have hc : (1 : ℚ) ≤ (x.2 : ℚ) := by exact_mod_cast (hpos x hxwc : (1 : Int) ≤ x.2)
    have htle : (totalWords : ℚ) ≤ 2 ^ 31 := by exact_mod_cast le_of_lt hint
    have hval : e.2 = (x.2 : ℚ) / (totalWords : ℚ) := by rw [← hxe]; rfl
    have hlow : (1 : ℚ) / 2 ^ 31 ≤ (x.2 : ℚ) / (totalWords : ℚ) :=
      div_le_div₀ (by linarith) hc ht htle
    rw [hval]
    exact ⟨div_pos (by linarith) ht, le_trans pow2_normal_le hlow⟩
  have hbound := sum_roundDouble_le (getTopNormalizedWords wordCount totalWords) hweights
  have hmul : ((getTopNormalizedWords wordCount totalWords).map Prod.snd).sum
      * (1 + 1 / 2 ^ 53) ≤ 1 * (1 + 1 / 2 ^ 53) :=
    mul_le_mul_of_nonneg_right hexact (by positivity)
  linarith

theorem getTopNormalizedWords_sum_witness :
    (((getTopNormalizedWords elevenWords 11).map Prod.snd).sum ≤ 1 ∧
        getTopNormalizedWordsDouble elevenWords 11 =
          (getTopNormalizedWords elevenWords 11).map (fun e => (e.1, roundDouble e.2)) ∧
        ((11 : Int) < 2 ^ 31 →
          ((getTopNormalizedWordsDouble elevenWords 11).map Prod.snd).sum
            ≤ 1 + 1 / 2 ^ 53)) ∧
      ((getTopNormalizedWordsDouble elevenWords 11).map Prod.snd).sum ≤ 1 + 1 / 2 ^ 53 :=
  ⟨getTopNormalizedWords_sum elevenWords (by decide) 11 (by decide) (by decide) (by decide),
    (getTopNormalizedWords_sum elevenWords (by decide) 11 (by decide) (by decide)
      (by decide)).2.2 (by decide)⟩

/-- C19 as the specification states it fails in the arithmetic of `double`: for
the profile `thirds` (three weights `1.0 / 3`) and the profile `eighths` (the
same terms with weights `1/8`, `1/4`, `3/8` in another order), iterating
`thirds` gives `0.24999999999999997` and iterating `eighths` gives `0.25`; so
`createSimilarityMatrix` scores the pair differently on `[a, b]` and on
`[b, a]`. -/
theorem similarityLoopDouble_comm_counterexample :
    UMap.WF thirds ∧ UMap.WF eighths ∧
      doubleDiv 1 3 = 6004799503160661 / 18014398509481984 ∧
      similarityLoopDouble eighths thirds 0 = 9007199254740991 / 36028797018963968 ∧
      similarityLoopDouble thirds eighths 0 = 1 / 4 ∧
      createSimilarityMatrixDouble ["a", "b"] [("a", thirds), ("b", eighths)]
        = some [[0, 9007199254740991 / 36028797018963968],
            [9007199254740991 / 36028797018963968, 0]] ∧
      createSimilarityMatrixDouble ["b", "a"] [("a", thirds), ("b", eighths)]
        = some [[0, 1 / 4], [1 / 4, 0]] ∧
      similarityLoopDouble eighths thirds 0 ≠ similarityLoopDouble thirds eighths 0 := by
  have ht : doubleDiv 1 3 = 6004799503160661 / 18014398509481984 := by decide!
  have hpa0 : doubleMul (6004799503160661 / 18014398509481984) (1 / 4) = 6004799503160661 / 72057594037927936 := by decide!
  have hsa0 : doubleAdd 0 (6004799503160661 / 72057594037927936) = 6004799503160661 / 72057594037927936 := by decide!
  have hpa1 : doubleMul (6004799503160661 / 18014398509481984) (3 / 8) = 1 / 8 := by decide!
  have hsa1 : doubleAdd (6004799503160661 / 72057594037927936) (1 / 8) = 3752999689475413 / 18014398509481984 := by decide!
  have hpa2 : doubleMul (6004799503160661 / 18014398509481984) (1 / 8) = 6004799503160661 / 144115188075855872 := by decide!
  have hsa2 : doubleAdd (3752999689475413 / 18014398509481984) (6004799503160661 / 144115188075855872) = 9007199254740991 / 36028797018963968 := by decide!
  have hpb0 : doubleMul (1 / 8) (6004799503160661 / 18014398509481984) = 6004799503160661 / 144115188075855872 := by decide!
  have hsb0 : doubleAdd 0 (6004799503160661 / 144115188075855872) = 6004799503160661 / 144115188075855872 := by decide!
  have hpb1 : doubleMul (1 / 4) (6004799503160661 / 18014398509481984) = 6004799503160661 / 72057594037927936 := by decide!
  have hsb1 : doubleAdd (6004799503160661 / 144115188075855872) (6004799503160661 / 72057594037927936) = 1 / 8 := by decide!
  have hpb2 : doubleMul (3 / 8) (6004799503160661 / 18014398509481984) = 1 / 8 := by decide!
  have hsb2 : doubleAdd (1 / 8) (1 / 8) = 1 / 4 := by decide!
  have hA : similarityLoopDouble eighths thirds 0 = 9007199254740991 / 36028797018963968 := by
    have hunfold : similarityLoopDouble eighths thirds 0 =
        doubleAdd (doubleAdd (doubleAdd 0 (doubleMul (doubleDiv 1 3) (1 / 4))) (doubleMul (doubleDiv 1 3) (3 / 8))) (doubleMul (doubleDiv 1 3) (1 / 8)) := by
      simp [similarityLoopDouble, eighths, thirds, UMap.count, UMap.at]
    rw [hunfold, ht, hpa0, hsa0, hpa1, hsa1, hpa2, hsa2]
  have hB : similarityLoopDouble thirds eighths 0 = 1 / 4 := by
    have hunfold : similarityLoopDouble thirds eighths 0 =
        doubleAdd (doubleAdd (doubleAdd 0 (doubleMul ((1 / 8)) (doubleDiv 1 3))) (doubleMul ((1 / 4)) (doubleDiv 1 3))) (doubleMul ((3 / 8)) (doubleDiv 1 3)) := by
      simp [similarityLoopDouble, eighths, thirds, UMap.count, UMap.at]
    rw [hunfold, ht, hpb0, hsb0, hpb1, hsb1, hpb2, hsb2]
  refine ⟨by decide, by decide, ht, hA, hB, ?_, ?_, ?_⟩
  · rw [createSimilarityMatrixDouble_pair [("a", thirds), ("b", eighths)] "a" "b" thirds eighths
      rfl rfl, hA]
  · rw [createSimilarityMatrixDouble_pair [("a", thirds), ("b", eighths)] "b" "a" eighths thirds
      rfl rfl, hB]
  · rw [hA, hB]
    norm_num

/-- C19 (amended): for two profiles `P` and `Q`, each holding each term once,
iterating `P` and probing `Q` accumulates the same sum as iterating `Q` and
probing `P` when products and sums are exact rationals, and also in the
arithmetic of `double` when the two profiles share at most one term; in those
cases `createSimilarityMatrix` gives the pair the same score on the file names
`[a, b]` and on `[b, a]`. -/
theorem similarityLoop_comm (P Q : List (String × ℚ)) (hP : UMap.WF P) (hQ : UMap.WF Q)
    (bookProfiles : List (String × List (String × ℚ))) (a b : String)
    (ha : UMap.at bookProfiles a = some P) (hb : UMap.at bookProfiles b = some Q) :
    (similarityLoop Q P 0 = similarityLoop P Q 0 ∧
        ∃ M M2 v, createSimilarityMatrix [a, b] bookProfiles = some M ∧
          createSimilarityMatrix [b, a] bookProfiles = some M2 ∧
          matGet M 0 1 = some v ∧ matGet M2 0 1 = some v) ∧
      ((terms P ∩ terms Q).card ≤ 1 →
        similarityLoopDouble Q P 0 = similarityLoopDouble P Q 0 ∧
          ∃ M M2 v, createSimilarityMatrixDouble [a, b] bookProfiles = some M ∧
            createSimilarityMatrixDouble [b, a] bookProfiles = some M2 ∧
            matGet M 0 1 = some v ∧ matGet M2 0 1 = some v) := by
  have hcomm : similarityLoop Q P 0 = similarityLoop P Q 0 := by
    rw [similarityLoop_eq_sharedTermsDot P Q hP, similarityLoop_eq_sharedTermsDot Q P hQ,
      sharedTermsDot_comm]
  have hab : ∀ name ∈ [a, b], (UMap.at bookProfiles name).isSome := by
    intro name hname
    rcases List.mem_cons.mp hname with h | h
    · rw [h, ha]; rfl
    · rw [List.mem_singleton.mp h, hb]; rfl
  have hba : ∀ name ∈ [b, a], (UMap.at bookProfiles name).isSome := by
    intro name hname
    rcases List.mem_cons.mp hname with h | h
    · rw [h, hb]; rfl
    · rw [List.mem_singleton.mp h, ha]; rfl
  obtain ⟨M, hM, _, hget⟩ := matGet_createSimilarityMatrix [a, b] bookProfiles
    (profileOf_isSome_of_at _ _ hab)
  obtain ⟨M2, hM2, _, hget2⟩ := matGet_createSimilarityMatrix [b, a] bookProfiles
    (profileOf_isSome_of_at _ _ hba)
  refine ⟨⟨hcomm, M, M2, similarityLoop Q P 0, hM, hM2, ?_, ?_⟩, ?_⟩
  · rw [hget 0 1 (by simp) (by simp)]
    simp [scoreOf, profileOf, ha, hb]
  · rw [hget2 0 1 (by simp) (by simp)]
    simp [scoreOf, profileOf, ha, hb, hcomm]
  · intro hcard
    have hdouble := similarityLoopDouble_comm_of_card_le_one P Q hP hQ hcard
    refine ⟨hdouble, _, _, similarityLoopDouble Q P 0,
      createSimilarityMatrixDouble_pair bookProfiles a b P Q ha hb,
      createSimilarityMatrixDouble_pair bookProfiles b a Q P hb ha, ?_, ?_⟩
    · simp [matGet]
    · simp [matGet, hdouble]

theorem similarityLoop_comm_witness :
    ((similarityLoop eighths thirds 0 = similarityLoop thirds eighths 0 ∧
          ∃ M M2 v,
            createSimilarityMatrix ["a", "b"] [("a", thirds), ("b", eighths)] = some M ∧
            createSimilarityMatrix ["b", "a"] [("a", thirds), ("b", eighths)] = some M2 ∧
            matGet M 0 1 = some v ∧ matGet M2 0 1 = some v) ∧
        ((terms thirds ∩ terms eighths).card ≤ 1 →
          similarityLoopDouble eighths thirds 0 = similarityLoopDouble thirds eighths 0 ∧
            ∃ M M2 v,
              createSimilarityMatrixDouble ["a", "b"] [("a", thirds), ("b", eighths)]
                = some M ∧
              createSimilarityMatrixDouble ["b", "a"] [("a", thirds), ("b", eighths)]
                = some M2 ∧
              matGet M 0 1 = some v ∧ matGet M2 0 1 = some v)) ∧
      (similarityLoopDouble [("Z", 1 / 8), ("W", 1 / 4)] thirds 0
          = similarityLoopDouble thirds [("Z", 1 / 8), ("W", 1 / 4)] 0 ∧
        ∃ M M2 v,
          createSimilarityMatrixDouble ["a", "b"]
              [("a", thirds), ("b", [("Z", 1 / 8), ("W", 1 / 4)])] = some M ∧
          createSimilarityMatrixDouble ["b", "a"]
              [("a", thirds), ("b", [("Z", 1 / 8), ("W", 1 / 4)])] = some M2 ∧
          matGet M 0 1 = some v ∧ matGet M2 0 1 = some v) :=
  ⟨similarityLoop_comm thirds eighths (by decide) (by decide)
      [("a", thirds), ("b", eighths)] "a" "b" rfl rfl,
    (similarityLoop_comm thirds [("Z", 1 / 8), ("W", 1 / 4)] (by decide) (by decide)
      [("a", thirds), ("b", [("Z", 1 / 8), ("W", 1 / 4)])] "a" "b" rfl rfl).2 (by decide)⟩

end Books
